import Mathlib

/-!
Shallow embedding of the ai-beta-reader backend (src/src/server.ts, src/src/db.ts,
plus the SQL schema files) and proofs about the specified properties.

The database state is modelled as a record of row lists; every SQL statement issued
by a route handler becomes a pure function on this state, and each route handler is a
function from the request parameters (and, where the real handler performs fallible
external calls, explicit oracles for those calls) to a status code plus the new state.
-/

namespace BetaReader

/-! ### Word counting

`POST /chapters` computes `data.text.trim().split(/\s+/).length` while
`POST /chapters/:chapterId/replace` computes
`updatedText.split(/\s+/).filter(word => word.length > 0).length`.
`splitWSGo` implements the JavaScript semantics of `split(/\s+/)`: the string is cut
at every maximal whitespace run, keeping the (possibly empty) fragment before the
first run and after the last run, and the empty string splits to `[""]`. -/

def splitWSGo : List Char → List Char → List (List Char)
  | [], acc => [acc.reverse]
  | c :: rest, acc =>
    if c.isWhitespace then
      match rest with
      | [] => [acc.reverse, []]
      | d :: rest2 =>
        if d.isWhitespace then splitWSGo (d :: rest2) acc
        else acc.reverse :: splitWSGo (d :: rest2) []
    else splitWSGo rest (c :: acc)

def splitWS (s : List Char) : List (List Char) := splitWSGo s []

/-- JavaScript `String.prototype.trim`: drop leading and trailing whitespace. -/
def trimChars (l : List Char) : List Char :=
  ((l.dropWhile Char.isWhitespace).reverse.dropWhile Char.isWhitespace).reverse

/-- Word count used by `POST /chapters`: `data.text.trim().split(/\s+/).length`. -/
def wordCountUpsert (s : String) : Nat := (splitWS (trimChars s.data)).length

/-- Word count used by `POST /chapters/:chapterId/replace`:
`updatedText.split(/\s+/).filter(word => word.length > 0).length`. -/
def wordCountReplace (s : String) : Nat :=
  ((splitWS s.data).filter (fun w => decide (0 < w.length))).length

/-! ### Find-and-replace machinery

`escapeRegExp` is `string.replace(/[.*+?^${}()|[\]\\]/g, '\\$&')`; the routes then run
`text.replace(new RegExp(escapeRegExp(searchTerm), 'gi'), replaceTerm)`.
We model the pattern language at the token level: lexing a pattern distinguishes
literal characters from characters that the regex engine treats specially
(unescaped metacharacters, and backslash escapes such as `\d` that denote classes).
The replacement semantics is modelled for the all-literal fragment, which by
`lexRegex_escapeRegExp` (below) is the only fragment an escaped search term can
produce.  Replacement strings containing `$` (whose `$&`-style substitution
patterns are not modelled) are excluded by hypothesis in the theorem. -/

def regexMeta : List Char :=
  ['.', '*', '+', '?', '^', '$', '\x7b', '\x7d', '(', ')', '|', '[', ']', '\\']

/-- `function escapeRegExp(string) { return string.replace(/[.*+?^${}()|[\]\\]/g, '\\$&'); }`:
every metacharacter is replaced by a backslash followed by itself. -/
def escapeChars (l : List Char) : List Char :=
  (l.map (fun c => if c ∈ regexMeta then ['\\', c] else [c])).flatten

def escapeRegExp (s : String) : String := ⟨escapeChars s.data⟩

inductive RTok where
  | lit (c : Char)
  | special (c : Char)
deriving DecidableEq

/-- Lex a regex source string into tokens.  A backslash followed by an alphanumeric
character is an escape class or backreference (special); a backslash followed by
anything else denotes that literal character; an unescaped metacharacter is special;
every other character is literal.  A trailing lone backslash is malformed. -/
def lexRegex : List Char → Option (List RTok)
  | [] => some []
  | c :: rest =>
    if c = '\\' then
      match rest with
      | [] => none
      | d :: rest2 =>
        (lexRegex rest2).map
          (fun ts => (if d.isAlphanum then RTok.special d else RTok.lit d) :: ts)
    else
      (lexRegex rest).map
        (fun ts => (if c ∈ regexMeta then RTok.special c else RTok.lit c) :: ts)

/-- Case-insensitive character comparison (the `i` regex flag). -/
def ciEq (a b : Char) : Bool := a.toLower = b.toLower

def startsWithCI : List Char → List Char → Bool
  | [], _ => true
  | _ :: _, [] => false
  | t :: ts, s :: ss => ciEq t s && startsWithCI ts ss

/-- Global (`g` flag) left-to-right non-overlapping replacement of a nonempty
literal pattern `t :: ts`, case-insensitively.  Structured with explicit fuel so
that the kernel can evaluate it; `fuel = s.length` always suffices because every
step consumes at least one character. -/
def scanReplaceCI : Nat → Char → List Char → List Char → List Char → List Char
  | 0, _, _, _, s => s
  | _ + 1, _, _, _, [] => []
  | n + 1, t, ts, repl, c :: rest =>
    if startsWithCI (t :: ts) (c :: rest) then
      repl ++ scanReplaceCI n t ts repl (rest.drop ts.length)
    else
      c :: scanReplaceCI n t ts repl rest

/-- JavaScript semantics of replacing the empty pattern globally: the empty match
occurs before every character and at the end. -/
def emptyPatReplace (repl : List Char) : List Char → List Char
  | [] => repl
  | c :: rest => repl ++ c :: emptyPatReplace repl rest

/-- Case-insensitive global replacement of the literal string `term`. -/
def litReplaceCI (term repl s : List Char) : List Char :=
  match term with
  | [] => emptyPatReplace repl s
  | t :: ts => scanReplaceCI s.length t ts repl s

/-- Extract the character list of an all-literal token sequence; `none` whenever a
special token (i.e. genuine regex syntax) occurs. -/
def litChars? : List RTok → Option (List Char)
  | [] => some []
  | RTok.lit c :: rest => (litChars? rest).map (c :: ·)
  | RTok.special _ :: _ => none

/-- Semantics of `s.replace(new RegExp(<tokens>, 'gi'), repl)` on the all-literal
fragment of the pattern language. -/
def jsReplaceGI (toks : List RTok) (repl s : List Char) : Option (List Char) :=
  (litChars? toks).map (fun cs => litReplaceCI cs repl s)

/-- The replacement performed by `POST /chapters/:chapterId/replace` (and by
`POST /wiki/:wikiPageId/replace` on each of content/summary/page name):
`text.replace(new RegExp(escapeRegExp(searchTerm), 'gi'), replaceTerm)`. -/
def replaceRoute (text searchTerm replaceTerm : String) : Option String :=
  (lexRegex (escapeRegExp searchTerm).data).bind
    (fun toks => (jsReplaceGI toks replaceTerm.data text.data).map (fun l => ⟨l⟩))

/-! ### Data model

Row types mirror the SQL schema (schema.sql, migration-add-reviews.sql, the wiki and
book-parts migrations, and migrations/007_array_based_ordering.sql).  `SERIAL`
primary keys are modelled with explicit next-id counters on the state. -/

structure Book where
  id : String
  user_id : Nat
  title : String
  chapter_order : List String
deriving DecidableEq

structure Chapter where
  id : String
  book_id : String
  title : Option String
  text : String
  word_count : Nat
  part_id : Option Nat
deriving DecidableEq

structure BookPart where
  id : Nat
  book_id : String
  name : String
  chapter_order : List String
deriving DecidableEq

structure Review where
  id : Nat
  chapter_id : String
  ai_profile_id : Option Nat
  custom_profile_id : Option Nat
  review_text : String
  prompt_used : String
deriving DecidableEq

structure WikiPage where
  id : Nat
  book_id : String
  page_name : String
  page_type : String
  content : String
  summary : Option String
  aliases : List String
  tags : List String
  is_major : Bool
  created_by_ai : Bool
deriving DecidableEq

structure WikiUpdate where
  id : Nat
  wiki_page_id : Nat
  chapter_id : Option String
  update_type : String
  previous_content : Option String
  new_content : String
  change_summary : Option String
  contradiction_notes : Option String
deriving DecidableEq

structure BookCharacter where
  book_id : String
  character_name : String
  first_mentioned_chapter : String
  mention_count : Nat
  has_wiki_page : Bool
  wiki_page_id : Option Nat
deriving DecidableEq

structure ChapterWikiMention where
  chapter_id : String
  wiki_page_id : Nat
  mention_context : String
deriving DecidableEq

structure ChapterSummary where
  chapter_id : String
  pov : Option String
  characters : List String
  beats : List String
  spoilers_ok : Bool
  summary : String
deriving DecidableEq

structure DB where
  books : List Book
  chapters : List Chapter
  parts : List BookPart
  reviews : List Review
  wiki_pages : List WikiPage
  wiki_updates : List WikiUpdate
  book_characters : List BookCharacter
  mentions : List ChapterWikiMention
  summaries : List ChapterSummary
  nextReviewId : Nat
  nextWikiPageId : Nat
  nextWikiUpdateId : Nat
deriving DecidableEq

def findBook (db : DB) (bookId : String) : Option Book :=
  db.books.find? (fun b => decide (b.id = bookId))

/-- `SELECT ... FROM chapters c JOIN books b ON c.book_id = b.id WHERE c.id = $1`. -/
def findChapterJoined (db : DB) (chapterId : String) : Option (Chapter × Book) :=
  (db.chapters.find? (fun c => decide (c.id = chapterId))).bind
    (fun c => (findBook db c.book_id).map (fun b => (c, b)))

/-! ### Content store: chapter upsert (`POST /chapters`)

After the ownership check the route upserts the chapter row
(`ON CONFLICT (id) DO UPDATE SET book_id, title, text, word_count`) and then appends
the chapter id to `books.chapter_order` only when it is not already present. -/

def upsertChapter (userId : Nat) (cid bookId : String) (title : Option String)
    (text : String) (db : DB) : Nat × DB :=
  match findBook db bookId with
  | none => (404, db)
  | some b =>
    if b.user_id ≠ userId then (403, db)
    else
      let wc := wordCountUpsert text
      let chapters' :=
        if ∃ c ∈ db.chapters, c.id = cid then
          db.chapters.map (fun c =>
            if c.id = cid then
              { c with book_id := bookId, title := title, text := text, word_count := wc }
            else c)
        else
          db.chapters ++
            [{ id := cid, book_id := bookId, title := title, text := text,
               word_count := wc, part_id := none }]
      let books' := db.books.map (fun b2 =>
        if b2.id = bookId then
          { b2 with chapter_order :=
              if cid ∈ b2.chapter_order then b2.chapter_order
              else b2.chapter_order ++ [cid] }
        else b2)
      (200, { db with chapters := chapters', books := books' })

/-! ### Ordering subsystem

Primitive statements issued by the reorder handlers, each a pure state update. -/

/-- `UPDATE chapters SET part_id = $1 WHERE id = $2`. -/
def setChapterPart (cid : String) (pid : Option Nat) (db : DB) : DB :=
  { db with chapters := db.chapters.map (fun c =>
      if c.id = cid then { c with part_id := pid } else c) }

/-- `UPDATE book_parts SET chapter_order = array_remove(chapter_order, $1) WHERE id = $2`. -/
def removeFromPartOrder (pid : Nat) (cid : String) (db : DB) : DB :=
  { db with parts := db.parts.map (fun p =>
      if p.id = pid then
        { p with chapter_order := p.chapter_order.filter (fun x => decide (x ≠ cid)) }
      else p) }

/-- `newOrder.splice(pos, 0, x)`: insert `x` at index `pos`, clamped to the length. -/
def spliceInsert (pos : Nat) (x : String) (l : List String) : List String :=
  l.take pos ++ x :: l.drop pos

/-- `UPDATE book_parts SET chapter_order = array_insert(chapter_order, $1, $2) WHERE id = $3`
with a 1-based position argument. -/
def insertPartOrderAt (pid : Nat) (pos1 : Nat) (cid : String) (db : DB) : DB :=
  { db with parts := db.parts.map (fun p =>
      if p.id = pid then { p with chapter_order := spliceInsert (pos1 - 1) cid p.chapter_order }
      else p) }

/-- `UPDATE book_parts SET chapter_order = array_append(chapter_order, $1) WHERE id = $2`. -/
def appendPartOrder (pid : Nat) (cid : String) (db : DB) : DB :=
  { db with parts := db.parts.map (fun p =>
      if p.id = pid then { p with chapter_order := p.chapter_order ++ [cid] } else p) }

/-- `UPDATE books SET chapter_order = $1 WHERE id = $2`. -/
def setBookOrder (bookId : String) (ord : List String) (db : DB) : DB :=
  { db with books := db.books.map (fun b =>
      if b.id = bookId then { b with chapter_order := ord } else b) }

/-- The statement list executed inside the `PUT /chapters/:chapterId/reorder`
transaction, computed from the chapter row and book order fetched before the
transaction (`chapter` and `b.chapter_order` in the handler). -/
def reorderStmts (ch : Chapter) (bookOrd : List String) (cid : String)
    (partArg : Option (Option Nat)) (bookPos partPos : Option Nat) : List (DB → DB) :=
  (match partArg with
   | none => []
   | some newPid =>
     [setChapterPart cid newPid]
       ++ (match ch.part_id with
           | some oldPid => [removeFromPartOrder oldPid cid]
           | none => [])
       ++ (match newPid with
           | some p =>
             match partPos with
             | some pp => [insertPartOrderAt p (pp + 1) cid]
             | none => [appendPartOrder p cid]
           | none => []))
    ++ (match bookPos with
        | none => []
        | some bp =>
          [setBookOrder ch.book_id
            (spliceInsert bp cid (bookOrd.filter (fun x => decide (x ≠ cid))))])

/-- Run the statements of a transaction in order; `failAt i` means the `i`-th
statement raises a database error, aborting the run. -/
def runStmts (failAt : Nat → Bool) : List (DB → DB) → Nat → DB → Option DB
  | [], _, db => some db
  | f :: rest, i, db => if failAt i then none else runStmts failAt rest (i + 1) (f db)

/-- `withTx` from db.ts: BEGIN, run the statements, COMMIT; on any error ROLLBACK,
restoring the pre-transaction state (the boolean records whether it committed). -/
def withTx (failAt : Nat → Bool) (stmts : List (DB → DB)) (db : DB) : Bool × DB :=
  match runStmts failAt stmts 0 db with
  | some db' => (true, db')
  | none => (false, db)

/-- `PUT /chapters/:chapterId/reorder`: fetch the chapter joined with its book,
check ownership, then run both reorder sub-steps inside one transaction. -/
def reorderChapter (failAt : Nat → Bool) (userId : Nat) (cid : String)
    (partArg : Option (Option Nat)) (bookPos partPos : Option Nat) (db : DB) : Nat × DB :=
  match findChapterJoined db cid with
  | none => (404, db)
  | some (ch, b) =>
    if b.user_id ≠ userId then (403, db)
    else
      match withTx failAt (reorderStmts ch b.chapter_order cid partArg bookPos partPos) db with
      | (true, db') => (200, db')
      | (false, db') => (500, db')

/-- One entry of the `partUpdates` object of the batch-reorder request:
`none` is the `'null'` sentinel key (unassign from any part). -/
def applyPartUpdate (bookId : String) (db : DB) : Option Nat × List String → DB
  | (none, cids) =>
    if cids.isEmpty then db
    else
      { db with chapters := db.chapters.map (fun c =>
          if c.id ∈ cids ∧ c.book_id = bookId then { c with part_id := none } else c) }
  | (some pid, cids) =>
    let db' := { db with parts := db.parts.map (fun p =>
        if p.id = pid then { p with chapter_order := cids } else p) }
    if cids.isEmpty then db'
    else
      { db' with chapters := db'.chapters.map (fun c =>
          if c.id ∈ cids ∧ c.book_id = bookId then { c with part_id := some pid } else c) }

/-- `PUT /books/:bookId/chapters/reorder` (successful-transaction path): replace the
book's global order wholesale with the request's `chapterOrder` (no validation), then
apply each part update. -/
def batchReorder (userId : Nat) (bookId : String) (reqOrder : Option (List String))
    (partUpdates : List (Option Nat × List String)) (db : DB) : Nat × DB :=
  match findBook db bookId with
  | none => (404, db)
  | some b =>
    if b.user_id ≠ userId then (403, db)
    else
      let db1 := match reqOrder with
        | some ord => setBookOrder bookId ord db
        | none => db
      (200, partUpdates.foldl (applyPartUpdate bookId) db1)

/-- `DELETE /books/:bookId/parts/:partId`: after the book ownership check the handler
first runs `UPDATE chapters SET part_id = NULL WHERE part_id = $1` and only then
`DELETE FROM book_parts WHERE id = $1 AND book_id = $2 RETURNING id`, answering 404
when the delete matched no row. -/
def deletePart (userId : Nat) (bookId : String) (partId : Nat) (db : DB) : Nat × DB :=
  match findBook db bookId with
  | none => (404, db)
  | some b =>
    if b.user_id ≠ userId then (403, db)
    else
      let db1 := { db with chapters := db.chapters.map (fun c =>
          if c.part_id = some partId then { c with part_id := none } else c) }
      let deleted := db1.parts.filter (fun p => decide (p.id = partId ∧ p.book_id = bookId))
      if deleted.isEmpty then (404, db1)
      else
        (200, { db1 with parts := db1.parts.filter (fun p =>
            decide (¬(p.id = partId ∧ p.book_id = bookId))) })

/-! ### Reviews (`POST /reviews`)

The handler resolves either a built-in AI profile (by tone) or a caller-owned custom
reviewer profile, calls the model, and then saves the review: it selects an existing
row by `(chapter_id, ai_profile_id)` or `(chapter_id, custom_profile_id)`, updating
the first match by id if one exists and inserting otherwise. -/

inductive ProfileRef where
  | ai (id : Nat)
  | custom (id : Nat)
deriving DecidableEq

def reviewMatches (p : ProfileRef) (cid : String) (r : Review) : Bool :=
  match p with
  | .ai i => decide (r.chapter_id = cid ∧ r.ai_profile_id = some i)
  | .custom j => decide (r.chapter_id = cid ∧ r.custom_profile_id = some j)

def saveReview (cid : String) (p : ProfileRef) (text prompt : String) (db : DB) : DB :=
  match db.reviews.find? (reviewMatches p cid) with
  | some r0 =>
    { db with reviews := db.reviews.map (fun r =>
        if r.id = r0.id then { r with review_text := text, prompt_used := prompt } else r) }
  | none =>
    { db with
        reviews := db.reviews ++
          [{ id := db.nextReviewId, chapter_id := cid,
             ai_profile_id := match p with | .ai i => some i | .custom _ => none,
             custom_profile_id := match p with | .custom j => some j | .ai _ => none,
             review_text := text, prompt_used := prompt }],
        nextReviewId := db.nextReviewId + 1 }

/-! ### Wiki page update (`PUT /wiki/:id`)

Partial field update; when the request carries a `content` value different from the
page's current content, exactly one `wiki_updates` row of type `manual_edit` is
inserted, carrying the previous and the new content. -/

structure UpdateWikiReq where
  page_name : Option String
  page_type : Option String
  content : Option String
  summary : Option String
  aliases : Option (List String)
  tags : Option (List String)
  is_major : Option Bool
deriving DecidableEq

def applyWikiFields (d : UpdateWikiReq) (w : WikiPage) : WikiPage :=
  { w with
      page_name := d.page_name.getD w.page_name,
      page_type := d.page_type.getD w.page_type,
      content := d.content.getD w.content,
      summary := match d.summary with | some s => some s | none => w.summary,
      aliases := d.aliases.getD w.aliases,
      tags := d.tags.getD w.tags,
      is_major := d.is_major.getD w.is_major }

/-- `SELECT w.*, b.user_id FROM wiki_pages w JOIN books b ON w.book_id = b.id WHERE w.id = $1`. -/
def findWikiJoined (db : DB) (wid : Nat) : Option (WikiPage × Book) :=
  (db.wiki_pages.find? (fun w => decide (w.id = wid))).bind
    (fun w => (findBook db w.book_id).map (fun b => (w, b)))

def updateWikiPage (userId : Nat) (wid : Nat) (d : UpdateWikiReq) (db : DB) : Nat × DB :=
  match findWikiJoined db wid with
  | none => (404, db)
  | some (currentPage, b) =>
    if b.user_id ≠ userId then (403, db)
    else
      let db1 := { db with wiki_pages := db.wiki_pages.map (fun w =>
          if w.id = wid then applyWikiFields d w else w) }
      let db2 :=
        if ∃ c, d.content = some c ∧ c ≠ currentPage.content then
          { db1 with
              wiki_updates := db1.wiki_updates ++
                [{ id := db1.nextWikiUpdateId, wiki_page_id := wid, chapter_id := none,
                   update_type := "manual_edit",
                   previous_content := some currentPage.content,
                   new_content := d.content.getD "",
                   change_summary := some "Manual edit by user",
                   contradiction_notes := none }],
              nextWikiUpdateId := db1.nextWikiUpdateId + 1 }
        else db1
      (200, db2)

/-! ### Summary generation and automatic wiki maintenance

`POST /chapters/:id/summary` checks ownership, counts chapters of the same book with
a smaller id to decide first-chapter treatment, calls the model, upserts the
`chapter_summaries` row, and then runs the best-effort wiki-maintenance pass
(`updateWikiPagesFromChapter`), whose body is wrapped in try/catch. -/

/-- `SELECT COUNT(*) FROM chapters c WHERE c.book_id = $1 AND c.id < $2` is zero. -/
def isFirstChapter (db : DB) (bookId chapterId : String) : Bool :=
  (db.chapters.filter (fun c => decide (c.book_id = bookId ∧ c.id < chapterId))).length = 0

def summaryBasePrompt : String :=
  "You are an expert fiction editor. Produce a tight factual summary (150–250 words), include POV, main characters, and 4–8 bullet beats. No speculation. Return valid JSON only."

def firstChapterNote : String :=
  " IMPORTANT: This is the FIRST chapter of the book - there are no previous chapters to reference. Focus only on what happens in this opening chapter."

/-- The system prompt sent for a summary request. -/
def summarySystemPrompt (first : Bool) : String :=
  summaryBasePrompt ++ (if first then firstChapterNote else "")

structure SummaryOut where
  pov : Option String
  characters : List String
  beats : List String
  spoilers_ok : Bool
  summary : String
deriving DecidableEq

/-- `INSERT INTO chapter_summaries ... ON CONFLICT (chapter_id) DO UPDATE SET ...`. -/
def upsertSummary (cid : String) (out : SummaryOut) (db : DB) : DB :=
  if ∃ s ∈ db.summaries, s.chapter_id = cid then
    { db with summaries := db.summaries.map (fun s =>
        if s.chapter_id = cid then
          { s with pov := out.pov, characters := out.characters, beats := out.beats,
                   spoilers_ok := out.spoilers_ok, summary := out.summary }
        else s) }
  else
    { db with summaries := db.summaries ++
        [{ chapter_id := cid, pov := out.pov, characters := out.characters,
           beats := out.beats, spoilers_ok := out.spoilers_ok, summary := out.summary }] }

/-- Parsed shape of a wiki-generation model response. -/
structure WikiGen where
  content : String
  summary : Option String
  hasChanges : Bool
  changeSummary : Option String
  hasContradictions : Bool
  contradictions : Option String
deriving DecidableEq

/-- The hardcoded fallback object returned by `generateWikiContent`'s catch block. -/
def fallbackWikiGen (characterName chapterSummary : String) : WikiGen :=
  { content := "# " ++ characterName ++ "\n\nMentioned in chapter summary: " ++ chapterSummary,
    summary := some "Character from the story",
    hasChanges := true,
    changeSummary := some "Basic wiki page created due to AI generation error",
    hasContradictions := false,
    contradictions := none }

/-- `generateWikiContent`: call the model and parse its JSON; any failure (no content,
malformed JSON) is caught and replaced by the fallback object.  The model call is an
oracle argument. -/
def generateWikiContent (modelResult : Except String WikiGen)
    (characterName chapterSummary : String) : WikiGen :=
  match modelResult with
  | .ok g => g
  | .error _ => fallbackWikiGen characterName chapterSummary

/-- Oracles for the maintenance pass: `dbFail i` makes the `i`-th database statement
of the pass throw, and `modelRes name` is the model response for character `name`. -/
structure MaintCtx where
  dbFail : Nat → Bool
  modelRes : String → Except String WikiGen

structure MaintState where
  db : DB
  step : Nat
deriving DecidableEq

/-- Run one database statement of the maintenance pass; on failure the exception
carries the partial state accumulated so far (there is no transaction here). -/
def mstep (ctx : MaintCtx) (f : DB → DB) (s : MaintState) : Except MaintState MaintState :=
  if ctx.dbFail s.step then .error s else .ok { db := f s.db, step := s.step + 1 }

/-- `INSERT INTO book_characters ... ON CONFLICT (book_id, character_name) DO UPDATE
SET mention_count = book_characters.mention_count + 1`. -/
def upsertBookCharacter (bookId name chapterId : String) (db : DB) : DB :=
  if ∃ bc ∈ db.book_characters, bc.book_id = bookId ∧ bc.character_name = name then
    { db with book_characters := db.book_characters.map (fun bc =>
        if bc.book_id = bookId ∧ bc.character_name = name then
          { bc with mention_count := bc.mention_count + 1 }
        else bc) }
  else
    { db with book_characters := db.book_characters ++
        [{ book_id := bookId, character_name := name, first_mentioned_chapter := chapterId,
           mention_count := 1, has_wiki_page := false, wiki_page_id := none }] }

/-- `SELECT * FROM wiki_pages WHERE book_id = $1 AND page_name = $2`. -/
def findWikiPage (db : DB) (bookId name : String) : Option WikiPage :=
  db.wiki_pages.find? (fun w => decide (w.book_id = bookId ∧ w.page_name = name))

/-- `INSERT INTO wiki_pages (book_id, page_name, page_type, content, summary,
created_by_ai) VALUES (..., 'character', ..., true) RETURNING id`. -/
def insertAIWikiPage (bookId name : String) (g : WikiGen) (db : DB) : DB :=
  { db with
      wiki_pages := db.wiki_pages ++
        [{ id := db.nextWikiPageId, book_id := bookId, page_name := name,
           page_type := "character", content := g.content, summary := g.summary,
           aliases := [], tags := [], is_major := false, created_by_ai := true }],
      nextWikiPageId := db.nextWikiPageId + 1 }

/-- `UPDATE book_characters SET has_wiki_page = true, wiki_page_id = $1 WHERE ...`. -/
def linkCharacterPage (pid : Nat) (bookId name : String) (db : DB) : DB :=
  { db with book_characters := db.book_characters.map (fun bc =>
      if bc.book_id = bookId ∧ bc.character_name = name then
        { bc with has_wiki_page := true, wiki_page_id := some pid }
      else bc) }

/-- The `'created'` audit row logged after creating a page for a first mention. -/
def logCreatedUpdate (pid : Nat) (chapterId : String) (g : WikiGen) (name : String)
    (db : DB) : DB :=
  { db with
      wiki_updates := db.wiki_updates ++
        [{ id := db.nextWikiUpdateId, wiki_page_id := pid, chapter_id := some chapterId,
           update_type := "created", previous_content := none, new_content := g.content,
           change_summary := some ("Created from chapter summary - first mention of " ++ name),
           contradiction_notes := none }],
      nextWikiUpdateId := db.nextWikiUpdateId + 1 }

/-- `UPDATE wiki_pages SET content = $1, summary = $2 WHERE id = $3`. -/
def setWikiContent (pid : Nat) (g : WikiGen) (db : DB) : DB :=
  { db with wiki_pages := db.wiki_pages.map (fun w =>
      if w.id = pid then { w with content := g.content, summary := g.summary } else w) }

/-- The `'updated'` / `'contradiction_noted'` audit row logged after reconciling an
existing page. -/
def logChangedUpdate (pid : Nat) (chapterId : String) (prev : String) (g : WikiGen)
    (db : DB) : DB :=
  { db with
      wiki_updates := db.wiki_updates ++
        [{ id := db.nextWikiUpdateId, wiki_page_id := pid, chapter_id := some chapterId,
           update_type := if g.hasContradictions then "contradiction_noted" else "updated",
           previous_content := some prev, new_content := g.content,
           change_summary := g.changeSummary, contradiction_notes := g.contradictions }],
      nextWikiUpdateId := db.nextWikiUpdateId + 1 }

/-- `INSERT INTO chapter_wiki_mentions ... ON CONFLICT (chapter_id, wiki_page_id)
DO UPDATE SET mention_context = EXCLUDED.mention_context`. -/
def upsertMention (chapterId : String) (pid : Nat) (chapterSummary : String) (db : DB) : DB :=
  let ctxText := "Mentioned in chapter summary: " ++ chapterSummary
  if ∃ m ∈ db.mentions, m.chapter_id = chapterId ∧ m.wiki_page_id = pid then
    { db with mentions := db.mentions.map (fun m =>
        if m.chapter_id = chapterId ∧ m.wiki_page_id = pid then
          { m with mention_context := ctxText }
        else m) }
  else
    { db with mentions := db.mentions ++
        [{ chapter_id := chapterId, wiki_page_id := pid, mention_context := ctxText }] }

/-- Body of the per-character iteration of `updateWikiPagesFromChapter`. -/
def processCharacter (ctx : MaintCtx) (bookId chapterId chapterSummary name : String)
    (s : MaintState) : Except MaintState MaintState := do
  let s ← mstep ctx (upsertBookCharacter bookId name chapterId) s
  match findWikiPage s.db bookId name with
  | none =>
    let g := generateWikiContent (ctx.modelRes name) name chapterSummary
    let pid := s.db.nextWikiPageId
    let s ← mstep ctx (insertAIWikiPage bookId name g) s
    let s ← mstep ctx (linkCharacterPage pid bookId name) s
    let s ← mstep ctx (logCreatedUpdate pid chapterId g name) s
    mstep ctx (upsertMention chapterId pid chapterSummary) s
  | some page =>
    let g := generateWikiContent (ctx.modelRes name) name chapterSummary
    let s ←
      if g.hasChanges then do
        let s ← mstep ctx (setWikiContent page.id g) s
        mstep ctx (logChangedUpdate page.id chapterId page.content g) s
      else pure s
    mstep ctx (upsertMention chapterId page.id chapterSummary) s

def processCharacters (ctx : MaintCtx) (bookId chapterId chapterSummary : String) :
    List String → MaintState → Except MaintState MaintState
  | [], s => .ok s
  | name :: rest, s => do
    processCharacters ctx bookId chapterId chapterSummary rest
      (← processCharacter ctx bookId chapterId chapterSummary name s)

/-- `updateWikiPagesFromChapter`: the whole loop runs inside try/catch; any error is
logged and swallowed, keeping whatever partial writes already happened. -/
def updateWikiPagesFromChapter (ctx : MaintCtx) (bookId chapterId : String)
    (characters : List String) (chapterSummary : String) (db : DB) : DB :=
  match processCharacters ctx bookId chapterId chapterSummary characters ⟨db, 0⟩ with
  | .ok s => s.db
  | .error s => s.db

/-- `POST /chapters/:id/summary`.  `modelSummary` is the summary model call's outcome;
an error there propagates to the route's error handler (500) before any write, while
the maintenance pass afterwards can never change the response. -/
def summaryRoute (ctx : MaintCtx) (userId : Nat) (chapterId : String)
    (modelSummary : Except String SummaryOut) (db : DB) : (Nat × Option SummaryOut) × DB :=
  match findChapterJoined db chapterId with
  | none => ((404, none), db)
  | some (ch, b) =>
    if b.user_id ≠ userId then ((403, none), db)
    else
      match modelSummary with
      | .error _ => ((500, none), db)
      | .ok out =>
        let db1 := upsertSummary chapterId out db
        let db2 :=
          if out.characters.isEmpty then db1
          else updateWikiPagesFromChapter ctx ch.book_id chapterId out.characters
                 out.summary db1
        ((200, some out), db2)

/-! ### Ordering invariant and operation sequences (for the chapter-order claim) -/

/-- The claimed invariant for one book: its global `chapter_order` contains the id of
each of the book's chapters exactly once and no id of a chapter of another book. -/
def bookOrderOk (db : DB) (b : Book) : Prop :=
  (∀ c ∈ db.chapters, c.book_id = b.id → b.chapter_order.count c.id = 1) ∧
  (∀ c ∈ db.chapters, c.book_id ≠ b.id → c.id ∉ b.chapter_order)

def chapterOrderInv (db : DB) : Prop :=
  ∀ b ∈ db.books, bookOrderOk db b

/-- Strengthening used for induction: additionally, every entry of a book's order is
the id of some chapter of that book (no dangling entries). -/
def chapterOrderStrong (db : DB) : Prop :=
  ∀ b ∈ db.books,
    (∀ c ∈ db.chapters, c.book_id = b.id → b.chapter_order.count c.id = 1) ∧
    (∀ x ∈ b.chapter_order, ∃ c ∈ db.chapters, c.id = x ∧ c.book_id = b.id)

/-- Well-formedness guaranteed by the primary keys of `books` and `chapters`. -/
def wfIds (db : DB) : Prop :=
  (db.books.map Book.id).Nodup ∧ (db.chapters.map Chapter.id).Nodup

/-- The chapter-order-affecting operations of the API. -/
inductive Op where
  | upsert (userId : Nat) (cid bookId : String) (title : Option String) (text : String)
  | reorderOne (userId : Nat) (cid : String) (partArg : Option (Option Nat))
      (bookPos partPos : Option Nat)
  | batch (userId : Nat) (bookId : String) (reqOrder : Option (List String))
      (partUpdates : List (Option Nat × List String))

def Op.apply (db : DB) : Op → DB
  | .upsert u cid bid t tx => (upsertChapter u cid bid t tx db).2
  | .reorderOne u cid pa bp pp => (reorderChapter (fun _ => false) u cid pa bp pp db).2
  | .batch u bid ord pus => (batchReorder u bid ord pus db).2

/-- The ids of the chapters currently belonging to a book. -/
def bookChapterIds (db : DB) (bookId : String) : List String :=
  (db.chapters.filter (fun c => decide (c.book_id = bookId))).map Chapter.id

/-- Request well-formedness for the amended invariant claim: a chapter upsert must not
move an existing chapter to a different book, and a batch reorder must supply a
permutation of the book's chapter ids as the new global order. -/
def Op.valid (db : DB) : Op → Prop
  | .upsert _ cid bid _ _ => ∀ c ∈ db.chapters, c.id = cid → c.book_id = bid
  | .reorderOne _ _ _ _ _ => True
  | .batch _ bid ord _ =>
    match ord with
    | none => True
    | some o => o.Perm (bookChapterIds db bid)

def ValidSeq (db : DB) : List Op → Prop
  | [] => True
  | op :: rest => op.valid db ∧ ValidSeq (op.apply db) rest

def applySeq (db : DB) (ops : List Op) : DB := ops.foldl Op.apply db

instance (db : DB) (b : Book) : Decidable (bookOrderOk db b) := by
  unfold bookOrderOk; infer_instance

instance (db : DB) : Decidable (chapterOrderInv db) := by
  unfold chapterOrderInv; infer_instance

instance (db : DB) : Decidable (chapterOrderStrong db) := by
  unfold chapterOrderStrong; infer_instance

instance (db : DB) : Decidable (wfIds db) := by
  unfold wfIds; infer_instance

instance (db : DB) (op : Op) : Decidable (op.valid db) := by
  cases op with
  | upsert u cid bid t tx => exact inferInstanceAs (Decidable (∀ _ ∈ _, _))
  | reorderOne u cid pa bp pp => exact inferInstanceAs (Decidable True)
  | batch u bid ord pus =>
    cases ord with
    | none => exact inferInstanceAs (Decidable True)
    | some o => exact inferInstanceAs (Decidable (List.Perm _ _))

instance instDecValidSeq (db : DB) : (ops : List Op) → Decidable (ValidSeq db ops)
  | [] => isTrue trivial
  | op :: rest =>
    have : Decidable (ValidSeq (op.apply db) rest) := instDecValidSeq (op.apply db) rest
    inferInstanceAs (Decidable (_ ∧ _))

/-- The (id, book_id) projection of a chapter row: the part of the chapters table
that the chapter-order invariant depends on. -/
def chKey (c : Chapter) : String × String := (c.id, c.book_id)

end BetaReader

namespace BetaReader

/-! ### Concrete example state used by witnesses and counterexamples -/

/-- User 1 owns books "A" (chapter c1) and "B" (chapter c2, in part 7). -/
def dbEx : DB :=
  { books := [{ id := "A", user_id := 1, title := "A", chapter_order := ["c1"] },
              { id := "B", user_id := 1, title := "B", chapter_order := ["c2"] }],
    chapters := [{ id := "c1", book_id := "A", title := none, text := "x",
                   word_count := 1, part_id := none },
                 { id := "c2", book_id := "B", title := none, text := "y",
                   word_count := 1, part_id := some 7 }],
    parts := [{ id := 7, book_id := "B", name := "P", chapter_order := ["c2"] }],
    reviews := [], wiki_pages := [], wiki_updates := [], book_characters := [],
    mentions := [], summaries := [],
    nextReviewId := 1, nextWikiPageId := 1, nextWikiUpdateId := 1 }

def chapEx : Chapter :=
  { id := "c2", book_id := "B", title := none, text := "y", word_count := 1,
    part_id := some 7 }

def bookEx : Book := { id := "B", user_id := 1, title := "B", chapter_order := ["c2"] }

end BetaReader

namespace BetaReader

/-- Mutual exclusion of a review row's two profile-reference columns. -/
def exactlyOneProfile (r : Review) : Prop :=
  ((∃ i, r.ai_profile_id = some i) ∧ r.custom_profile_id = none) ∨
  (r.ai_profile_id = none ∧ (∃ j, r.custom_profile_id = some j))

def pageEx : WikiPage :=
  { id := 3, book_id := "A", page_name := "Ann", page_type := "character",
    content := "old", summary := none, aliases := [], tags := [], is_major := false,
    created_by_ai := false }

def bookExA : Book := { id := "A", user_id := 1, title := "A", chapter_order := ["c1"] }

/-- `dbEx` extended with one wiki page on book "A". -/
def dbExW : DB := { dbEx with wiki_pages := [pageEx], nextWikiPageId := 4 }

/-- A wiki-page update request that changes only the content. -/
def reqExContent : UpdateWikiReq :=
  { page_name := none, page_type := none, content := some "new", summary := none,
    aliases := none, tags := none, is_major := none }

end BetaReader

namespace BetaReader

/-! ## Helper lemmas -/

theorem runStmts_eq_none (failAt : Nat → Bool) :
    ∀ (stmts : List (DB → DB)) (k : Nat) (db : DB),
      (∃ j, j < stmts.length ∧ failAt (k + j) = true) →
      runStmts failAt stmts k db = none := by
  intro stmts
  induction stmts with
  | nil =>
    intro k db h
    obtain ⟨j, hj, _⟩ := h
    simp at hj
  | cons f rest ih =>
    intro k db h
    obtain ⟨j, hj, hfail⟩ := h
    by_cases hk : failAt k
    · simp [runStmts, hk]
    · have hj0 : j ≠ 0 := by
        intro h0
        subst h0
        exact hk hfail
      obtain ⟨j', rfl⟩ := Nat.exists_eq_succ_of_ne_zero hj0
      simp only [runStmts, hk, Bool.false_eq_true, if_false]
      refine ih (k + 1) (f db) ⟨j', ?_, ?_⟩
      · simpa [Nat.succ_lt_succ_iff] using hj
      · have : k + 1 + j' = k + (j' + 1) := by omega
        rw [this]
        exact hfail

/-! ## Theorems for the claims -/

set_option maxRecDepth 8192 in
/-- **C7**: summary generation treats a chapter as the book's first chapter exactly
when no chapter of the same book has a lexicographically smaller identifier, and the
system prompt carries the first-chapter instructions exactly in that case. -/
theorem c7_first_chapter_detection (db : DB) (bookId chapterId : String) :
    (isFirstChapter db bookId chapterId = true ↔
      ¬ ∃ c ∈ db.chapters, c.book_id = bookId ∧ c.id < chapterId) ∧
    (summarySystemPrompt (isFirstChapter db bookId chapterId) =
        summaryBasePrompt ++ firstChapterNote ↔
      isFirstChapter db bookId chapterId = true) ∧
    (summarySystemPrompt (isFirstChapter db bookId chapterId) = summaryBasePrompt ↔
      isFirstChapter db bookId chapterId = false) := by
  have hlen : firstChapterNote.length ≠ 0 := by decide
  have hne : summaryBasePrompt ++ firstChapterNote ≠ summaryBasePrompt := by
    intro h
    have h2 := congrArg String.length h
    rw [String.length_append] at h2
    omega
  have hne2 : summaryBasePrompt ≠ summaryBasePrompt ++ firstChapterNote := fun h => hne h.symm
  refine ⟨?_, ?_, ?_⟩
  · simp [isFirstChapter, List.length_eq_zero, List.filter_eq_nil_iff]
  · by_cases h : isFirstChapter db bookId chapterId <;>
      simp [summarySystemPrompt, h, hne, hne2]
  · by_cases h : isFirstChapter db bookId chapterId <;>
      simp [summarySystemPrompt, h, hne, hne2]

/-- **C2**: when the single-chapter reorder request reaches the transaction and any
sub-step (part assignment, part-order removal/insertion, book-order reinsertion)
fails, the whole state — book order, part orders, and the chapter's part reference —
is exactly the pre-operation state. -/
theorem c2_reorder_transaction_atomic (failAt : Nat → Bool) (userId : Nat)
    (cid : String) (partArg : Option (Option Nat)) (bookPos partPos : Option Nat)
    (db : DB) (ch : Chapter) (b : Book)
    (hfind : findChapterJoined db cid = some (ch, b))
    (hown : b.user_id = userId)
    (hfail : ∃ j, j < (reorderStmts ch b.chapter_order cid partArg bookPos partPos).length ∧
        failAt j = true) :
    reorderChapter failAt userId cid partArg bookPos partPos db = (500, db) := by
  have hrun : runStmts failAt (reorderStmts ch b.chapter_order cid partArg bookPos partPos)
      0 db = none := by
    refine runStmts_eq_none failAt _ 0 db ?_
    simpa using hfail
  unfold reorderChapter
  rw [hfind]
  simp [hown, withTx, hrun]

/-- Witness for the atomicity theorem: with a request that moves chapter c2 out of
part 7 and to book position 0, and the first transaction statement failing, the
route answers 500 and the state is untouched. -/
theorem c2_reorder_transaction_atomic_witness :
    findChapterJoined dbEx "c2" = some (chapEx, bookEx) ∧
    bookEx.user_id = 1 ∧
    (∃ j, j < (reorderStmts chapEx bookEx.chapter_order "c2" (some none) (some 0)
        none).length ∧ (fun i => decide (i = 0)) j = true) ∧
    reorderChapter (fun i => decide (i = 0)) 1 "c2" (some none) (some 0) none dbEx =
      (500, dbEx) := by
  refine ⟨by decide, by decide, by decide, ?_⟩
  exact c2_reorder_transaction_atomic (fun i => decide (i = 0)) 1 "c2" (some none)
    (some 0) none dbEx chapEx bookEx (by decide) (by decide) (by decide)

/-- **C5**: counter-demonstration at a concrete input.  User 1 owns books "A" and
"B"; part 7 belongs to "B" and chapter c2 sits in it.  `DELETE /books/A/parts/7`
answers 404 ("Part not found") yet has already cleared `part_id` on chapter c2, so
persisted state was modified by a request that reported 404. -/
theorem c5_part_delete_mutates_before_404 :
    (deletePart 1 "A" 7 dbEx).1 = 404 ∧
    (deletePart 1 "A" 7 dbEx).2 ≠ dbEx ∧
    ∃ c ∈ (deletePart 1 "A" 7 dbEx).2.chapters, c.id = "c2" ∧ c.part_id = none := by
  exact ⟨by decide, by decide, by decide⟩

end BetaReader

namespace BetaReader

/-- **C3**: a wiki page update whose request carries a `content` value different from
the page's current content appends exactly one `wiki_updates` row, of type
`manual_edit`, carrying the previous and the new content; a request that omits
`content` or repeats the current content (even while changing other fields) appends
no row. -/
theorem c3_wiki_manual_edit_audit (userId : Nat) (wid : Nat) (d : UpdateWikiReq)
    (db : DB) (page : WikiPage) (b : Book)
    (hfind : findWikiJoined db wid = some (page, b))
    (hown : b.user_id = userId) :
    (∀ c, d.content = some c → c ≠ page.content →
      (updateWikiPage userId wid d db).2.wiki_updates =
        db.wiki_updates ++
          [{ id := db.nextWikiUpdateId, wiki_page_id := wid, chapter_id := none,
             update_type := "manual_edit", previous_content := some page.content,
             new_content := c, change_summary := some "Manual edit by user",
             contradiction_notes := none }]) ∧
    ((d.content = none ∨ d.content = some page.content) →
      (updateWikiPage userId wid d db).2.wiki_updates = db.wiki_updates) := by
  unfold updateWikiPage
  rw [hfind]
  simp only [hown, ne_eq, not_true_eq_false, if_false, ite_false, if_neg,
    not_false_eq_true]
  constructor
  · intro c hc hne
    rw [if_pos ⟨c, hc, hne⟩]
    simp [hc]
  · intro hc
    rw [if_neg ?_]
    rcases hc with hc | hc <;> rintro ⟨c, hceq, hcne⟩ <;> rw [hc] at hceq
    · exact Option.noConfusion hceq
    · exact hcne (Option.some.inj hceq).symm

/-- Witness for the wiki audit theorem: updating page 3 of book "A" with content
"new" (current content "old") appends exactly the one expected `manual_edit` row. -/
theorem c3_wiki_manual_edit_audit_witness :
    findWikiJoined dbExW 3 = some (pageEx, bookExA) ∧
    bookExA.user_id = 1 ∧
    reqExContent.content = some "new" ∧
    ("new" : String) ≠ pageEx.content ∧
    (updateWikiPage 1 3 reqExContent dbExW).2.wiki_updates =
      dbExW.wiki_updates ++
        [{ id := dbExW.nextWikiUpdateId, wiki_page_id := 3, chapter_id := none,
           update_type := "manual_edit", previous_content := some pageEx.content,
           new_content := "new", change_summary := some "Manual edit by user",
           contradiction_notes := none }] := by
  refine ⟨by decide, by decide, by decide, by decide, ?_⟩
  exact (c3_wiki_manual_edit_audit 1 3 reqExContent dbExW pageEx bookExA
    (by decide) (by decide)).1 "new" rfl (by decide)

/-- **C9**: every review row inserted by `POST /reviews` references exactly one of
an AI profile and a custom reviewer profile; the save operation preserves the mutual
exclusion of the two profile columns across the whole table. -/
theorem c9_review_profile_mutual_exclusion (cid : String) (p : ProfileRef)
    (text prompt : String) (db : DB)
    (hall : ∀ r ∈ db.reviews, exactlyOneProfile r) :
    ∀ r ∈ (saveReview cid p text prompt db).reviews, exactlyOneProfile r := by
  unfold saveReview
  cases hfind : db.reviews.find? (reviewMatches p cid) with
  | some r0 =>
    intro r hr
    simp only [List.mem_map] at hr
    obtain ⟨r', hr', rfl⟩ := hr
    by_cases h : r'.id = r0.id
    · have := hall r' hr'
      simp only [h, if_true, exactlyOneProfile] at this ⊢
      simpa using this
    · simp only [h, if_false, ite_false, if_neg, not_false_eq_true]
      simpa [h] using hall r' hr'
  | none =>
    intro r hr
    simp only [List.mem_append, List.mem_singleton] at hr
    rcases hr with hr | rfl
    · exact hall r hr
    · cases p <;> simp [exactlyOneProfile]

/-- Witness for the mutual-exclusion theorem on the concrete empty-review state. -/
theorem c9_review_profile_mutual_exclusion_witness :
    (∀ r ∈ dbEx.reviews, exactlyOneProfile r) ∧
    ∀ r ∈ (saveReview "c1" (ProfileRef.ai 2) "text" "prompt" dbEx).reviews,
      exactlyOneProfile r := by
  refine ⟨by simp [dbEx], ?_⟩
  exact c9_review_profile_mutual_exclusion "c1" (ProfileRef.ai 2) "text" "prompt" dbEx
    (by simp [dbEx])

theorem find?_append_of_forall_false {α : Type} (p : α → Bool) (l1 l2 : List α)
    (h : ∀ a ∈ l1, p a = false) : (l1 ++ l2).find? p = l2.find? p := by
  induction l1 with
  | nil => simp
  | cons x xs ih =>
    have hx := h x (by simp)
    simp only [List.cons_append, List.find?, hx]
    exact ih (fun a ha => h a (by simp [ha]))

/-- **C4**: requesting a review twice for the same (chapter, profile) pair — for a
built-in AI profile or a custom reviewer profile alike — leaves exactly one review
row for that pair, whose text and prompt come from the second request. -/
theorem c4_review_upsert_replaces (cid : String) (p : ProfileRef)
    (t1 pr1 t2 pr2 : String) (db : DB)
    (hbound : ∀ r ∈ db.reviews, r.id < db.nextReviewId)
    (hnone : ∀ r ∈ db.reviews, reviewMatches p cid r = false) :
    (saveReview cid p t2 pr2 (saveReview cid p t1 pr1 db)).reviews.filter
        (reviewMatches p cid) =
      [{ id := db.nextReviewId, chapter_id := cid,
         ai_profile_id := match p with | .ai i => some i | .custom _ => none,
         custom_profile_id := match p with | .custom j => some j | .ai _ => none,
         review_text := t2, prompt_used := pr2 }] := by
  have hmatch1 : ∀ t pr,
      reviewMatches p cid
        { id := db.nextReviewId, chapter_id := cid,
          ai_profile_id := match p with | .ai i => some i | .custom _ => none,
          custom_profile_id := match p with | .custom j => some j | .ai _ => none,
          review_text := t, prompt_used := pr } = true := by
    intro t pr
    cases p <;> simp [reviewMatches]
  have hfind0 : db.reviews.find? (reviewMatches p cid) = none :=
    List.find?_eq_none.mpr (fun a ha => by simp [hnone a ha])
  unfold saveReview
  rw [hfind0]
  simp only
  rw [find?_append_of_forall_false _ _ _ hnone]
  simp only [List.find?_cons, hmatch1 t1 pr1, List.find?_nil]
  have hmap : (db.reviews.map (fun r =>
      if r.id = db.nextReviewId then { r with review_text := t2, prompt_used := pr2 }
      else r)) = db.reviews := by
    refine (List.map_congr_left ?_).trans (List.map_id _)
    intro r hr
    have hne : r.id ≠ db.nextReviewId := Nat.ne_of_lt (hbound r hr)
    simp [hne]
  have hfilter0 : db.reviews.filter (reviewMatches p cid) = [] :=
    List.filter_eq_nil_iff.mpr (fun a ha => by simp [hnone a ha])
  rw [List.map_append, List.filter_append, hmap, hfilter0]
  simp only [List.map_cons, List.map_nil, List.nil_append, if_pos rfl]
  simp only [List.filter_cons, hmatch1 t2 pr2, if_true, List.filter_nil]
  cases p <;> rfl

end BetaReader

namespace BetaReader

/-- Witness for the review upsert theorem with a custom reviewer profile, starting
from a state with no review for the pair. -/
theorem c4_review_upsert_replaces_witness :
    (∀ r ∈ dbEx.reviews, r.id < dbEx.nextReviewId) ∧
    (∀ r ∈ dbEx.reviews, reviewMatches (ProfileRef.custom 5) "c1" r = false) ∧
    (saveReview "c1" (ProfileRef.custom 5) "t2" "p2"
        (saveReview "c1" (ProfileRef.custom 5) "t1" "p1" dbEx)).reviews.filter
        (reviewMatches (ProfileRef.custom 5) "c1") =
      [{ id := dbEx.nextReviewId, chapter_id := "c1", ai_profile_id := none,
         custom_profile_id := some 5, review_text := "t2", prompt_used := "p2" }] := by
  refine ⟨by decide, by decide, ?_⟩
  exact c4_review_upsert_replaces "c1" (ProfileRef.custom 5) "t1" "p1" "t2" "p2" dbEx
    (by decide) (by decide)

end BetaReader

namespace BetaReader

theorem litChars?_map_lit : ∀ l : List Char, litChars? (l.map RTok.lit) = some l := by
  intro l
  induction l with
  | nil => rfl
  | cons c rest ih => simp [litChars?, ih]

theorem regexMeta_not_alphanum : ∀ c ∈ regexMeta, c.isAlphanum = false := by decide

/-- Escaping a search term always lexes to the purely literal token sequence spelling
the term: no regex operator survives escaping. -/
theorem lexRegex_escapeChars : ∀ l : List Char, lexRegex (escapeChars l) = some (l.map RTok.lit) := by
  intro l
  induction l with
  | nil => rfl
  | cons c rest ih =>
    by_cases hc : c ∈ regexMeta
    · have hesc : escapeChars (c :: rest) = '\\' :: c :: escapeChars rest := by
        simp [escapeChars, hc]
      have hal : c.isAlphanum = false := regexMeta_not_alphanum c hc
      rw [hesc]
      simp [lexRegex, ih, hal]
    · have hesc : escapeChars (c :: rest) = c :: escapeChars rest := by
        simp [escapeChars, hc]
      have hbs : c ≠ '\\' := by
        intro h
        exact hc (h ▸ (by decide : ('\\' : Char) ∈ regexMeta))
      rw [hesc]
      rw [lexRegex.eq_def]
      dsimp only
      rw [if_neg hbs, ih]
      simp [hc]

/-- **C8**: a find-and-replace request matches the search term as a case-insensitive
literal string: escaping turns the term into an all-literal pattern (first conjunct),
so the route's replacement coincides with plain literal case-insensitive global
replacement (second conjunct).  Replacement strings containing `$` (JavaScript
replacement-pattern syntax, outside the claim) are excluded by hypothesis. -/
theorem c8_replace_is_literal (text searchTerm replaceTerm : String)
    (_hrep : '$' ∉ replaceTerm.data) :
    lexRegex (escapeRegExp searchTerm).data = some (searchTerm.data.map RTok.lit) ∧
    replaceRoute text searchTerm replaceTerm =
      some ⟨litReplaceCI searchTerm.data replaceTerm.data text.data⟩ := by
  have hA : lexRegex (escapeRegExp searchTerm).data =
      some (searchTerm.data.map RTok.lit) := lexRegex_escapeChars searchTerm.data
  refine ⟨hA, ?_⟩
  unfold replaceRoute jsReplaceGI
  rw [hA]
  simp [litChars?_map_lit]

/-- Witness: replacing the metacharacter-laden term "a.b+c" in a text containing it
literally (in two letter cases) and also containing the string "aXbbc" that the raw
pattern `/a.b+c/` would have matched: only the literal occurrences are replaced. -/
theorem c8_replace_is_literal_witness :
    ('$' ∉ ("Q" : String).data) ∧
    replaceRoute "aXbbc a.b+c A.B+C" "a.b+c" "Q" =
      some ⟨litReplaceCI "a.b+c".data "Q".data "aXbbc a.b+c A.B+C".data⟩ ∧
    (⟨litReplaceCI "a.b+c".data "Q".data "aXbbc a.b+c A.B+C".data⟩ : String) =
      "aXbbc Q Q" := by
  exact ⟨by decide, (c8_replace_is_literal "aXbbc a.b+c A.B+C" "a.b+c" "Q" (by decide)).2,
    by decide⟩

end BetaReader

namespace BetaReader

/-! ## Word-count equivalence lemmas -/

theorem splitWSGo_nonws (c : Char) (rest acc : List Char) (hc : ¬ c.isWhitespace) :
    splitWSGo (c :: rest) acc = splitWSGo rest (c :: acc) := by
  rw [splitWSGo.eq_def]
  dsimp only
  rw [if_neg hc]

theorem splitWSGo_ws_nil (c : Char) (acc : List Char) (hc : c.isWhitespace) :
    splitWSGo [c] acc = [acc.reverse, []] := by
  rw [splitWSGo.eq_def]
  dsimp only
  rw [if_pos hc]

theorem splitWSGo_ws_ws (c d : Char) (rest2 acc : List Char) (hc : c.isWhitespace)
    (hd : d.isWhitespace) :
    splitWSGo (c :: d :: rest2) acc = splitWSGo (d :: rest2) acc := by
  rw [splitWSGo.eq_def]
  dsimp only
  rw [if_pos hc, if_pos hd]

theorem splitWSGo_ws_nonws (c d : Char) (rest2 acc : List Char) (hc : c.isWhitespace)
    (hd : ¬ d.isWhitespace) :
    splitWSGo (c :: d :: rest2) acc = acc.reverse :: splitWSGo (d :: rest2) [] := by
  rw [splitWSGo.eq_def]
  dsimp only
  rw [if_pos hc, if_neg hd]

/-- Splitting an all-whitespace string yields only the accumulated fragment (and
empty pieces, which the filter removes). -/
theorem filter_splitWSGo_allws (w : List Char) (hw : ∀ c ∈ w, c.isWhitespace) :
    ∀ acc, (splitWSGo w acc).filter (fun p => decide (0 < p.length)) =
      if acc.isEmpty then [] else [acc.reverse] := by
  induction w with
  | nil =>
    intro acc
    cases acc <;> simp [splitWSGo]
  | cons c w2 ih =>
    intro acc
    have hc : c.isWhitespace := hw c (by simp)
    cases w2 with
    | nil =>
      rw [splitWSGo_ws_nil c acc hc]
      cases acc <;> simp
    | cons d w3 =>
      have hd : d.isWhitespace := hw d (by simp)
      rw [splitWSGo_ws_ws c d w3 acc hc hd]
      exact ih (fun x hx => hw x (by simp [hx])) acc

/-- Appending trailing whitespace never changes the number of nonempty fragments. -/
theorem filter_splitWSGo_append_ws (w : List Char) (hw : ∀ c ∈ w, c.isWhitespace) :
    ∀ (t acc : List Char),
      ((splitWSGo (t ++ w) acc).filter (fun p => decide (0 < p.length))).length =
      ((splitWSGo t acc).filter (fun p => decide (0 < p.length))).length := by
  intro t
  induction t with
  | nil =>
    intro acc
    simp only [List.nil_append]
    rw [filter_splitWSGo_allws w hw acc]
    cases acc <;> simp [splitWSGo]
  | cons c t2 ih =>
    intro acc
    by_cases hc : c.isWhitespace
    · cases t2 with
      | nil =>
        cases w with
        | nil => simp
        | cons e w2 =>
          have he : e.isWhitespace := hw e (by simp)
          simp only [List.cons_append, List.nil_append]
          rw [splitWSGo_ws_ws c e w2 acc hc he,
              filter_splitWSGo_allws (e :: w2) hw acc,
              splitWSGo_ws_nil c acc hc]
          cases acc <;> simp
      | cons d t3 =>
        by_cases hd : d.isWhitespace
        · simp only [List.cons_append]
          rw [splitWSGo_ws_ws c d (t3 ++ w) acc hc hd,
              splitWSGo_ws_ws c d t3 acc hc hd]
          exact ih acc
        · simp only [List.cons_append]
          rw [splitWSGo_ws_nonws c d (t3 ++ w) acc hc hd,
              splitWSGo_ws_nonws c d t3 acc hc hd]
          have hrec := ih ([] : List Char)
          simp only [List.cons_append] at hrec
          simp only [List.filter_cons]
          by_cases ha : (0 : Nat) < acc.length <;> simp [ha, hrec]
    · simp only [List.cons_append]
      rw [splitWSGo_nonws c (t2 ++ w) acc hc, splitWSGo_nonws c t2 acc hc]
      exact ih (c :: acc)

/-- On a string with a non-whitespace first character, no trailing whitespace, and a
nonempty (or soon nonempty) accumulator, every produced fragment is nonempty: the
fragment count equals the filtered fragment count. -/
theorem splitWSGo_len_eq_filter :
    ∀ (t acc : List Char),
      (∀ c, t.getLast? = some c → ¬ c.isWhitespace) →
      (acc ≠ [] ∨ ∃ c, t.head? = some c ∧ ¬ c.isWhitespace) →
      (splitWSGo t acc).length =
        ((splitWSGo t acc).filter (fun p => decide (0 < p.length))).length := by
  intro t
  induction t with
  | nil =>
    intro acc _ hhead
    have hacc : acc ≠ [] := by
      rcases hhead with h | ⟨c, hc, _⟩
      · exact h
      · simp at hc
    cases acc with
    | nil => exact absurd rfl hacc
    | cons a as => simp [splitWSGo]
  | cons c rest ih =>
    intro acc hend hhead
    by_cases hc : c.isWhitespace
    · have hacc : acc ≠ [] := by
        rcases hhead with h | ⟨e, he, hwe⟩
        · exact h
        · simp only [List.head?_cons, Option.some.injEq] at he
          exact absurd (he ▸ hc) hwe
      cases rest with
      | nil =>
        have := hend c (List.getLast?_singleton c)
        exact absurd hc this
      | cons d rest2 =>
        have hend2 : ∀ e, (d :: rest2).getLast? = some e → ¬ e.isWhitespace := by
          intro e he
          exact hend e (by rw [List.getLast?_cons_cons]; exact he)
        by_cases hd : d.isWhitespace
        · rw [splitWSGo_ws_ws c d rest2 acc hc hd]
          exact ih acc hend2 (Or.inl hacc)
        · rw [splitWSGo_ws_nonws c d rest2 acc hc hd]
          have hrec := ih [] hend2 (Or.inr ⟨d, rfl, hd⟩)
          have haccq : (0 : Nat) < acc.length := by
            cases acc with
            | nil => exact absurd rfl hacc
            | cons a as => simp
          simp [List.filter_cons, haccq, hrec]
    · rw [splitWSGo_nonws c rest acc hc]
      have hend2 : ∀ e, rest.getLast? = some e → ¬ e.isWhitespace := by
        intro e he
        cases rest with
        | nil => simp at he
        | cons d rest2 => exact hend e (by rw [List.getLast?_cons_cons]; exact he)
      exact ih (c :: acc) hend2 (Or.inl (by simp))

/-- Dropping one leading whitespace character does not change the filtered count. -/
theorem filter_splitWSGo_cons_ws (c : Char) (rest : List Char) (hc : c.isWhitespace) :
    ((splitWSGo (c :: rest) []).filter (fun p => decide (0 < p.length))).length =
      ((splitWSGo rest []).filter (fun p => decide (0 < p.length))).length := by
  cases rest with
  | nil =>
    rw [splitWSGo_ws_nil c [] hc]
    simp [splitWSGo]
  | cons d rest2 =>
    by_cases hd : d.isWhitespace
    · rw [splitWSGo_ws_ws c d rest2 [] hc hd]
    · rw [splitWSGo_ws_nonws c d rest2 [] hc hd]
      simp

/-- Leading whitespace does not change the filtered count. -/
theorem filter_splitWSGo_dropWhile (s : List Char) :
    ((splitWSGo s []).filter (fun p => decide (0 < p.length))).length =
      ((splitWSGo (s.dropWhile Char.isWhitespace) []).filter
        (fun p => decide (0 < p.length))).length := by
  induction s with
  | nil => rfl
  | cons c rest ih =>
    by_cases hc : c.isWhitespace
    · rw [List.dropWhile_cons, if_pos hc, filter_splitWSGo_cons_ws c rest hc]
      exact ih
    · rw [List.dropWhile_cons, if_neg (by simpa using hc)]

theorem head?_dropWhile_not_ws (l : List Char) :
    ∀ c, (l.dropWhile Char.isWhitespace).head? = some c → ¬ c.isWhitespace := by
  induction l with
  | nil => intro c h; simp at h
  | cons a l ih =>
    intro c h
    by_cases ha : a.isWhitespace
    · rw [List.dropWhile_cons, if_pos ha] at h
      exact ih c h
    · rw [List.dropWhile_cons, if_neg (by simpa using ha)] at h
      simp only [List.head?_cons, Option.some.injEq] at h
      exact h ▸ ha

theorem getLast?_dropWhile_of_ne_nil (p : Char → Bool) (l : List Char)
    (h : l.dropWhile p ≠ []) : (l.dropWhile p).getLast? = l.getLast? := by
  induction l with
  | nil => simp at h
  | cons a l ih =>
    by_cases ha : p a
    · rw [List.dropWhile_cons, if_pos ha] at h ⊢
      rw [ih h]
      have hl : l ≠ [] := by
        intro he
        subst he
        simp at h
      cases l with
      | nil => exact absurd rfl hl
      | cons b l2 => rw [List.getLast?_cons_cons]
    · rw [List.dropWhile_cons, if_neg (by simpa using ha)]

/-- **C10 counterexample**: on the whitespace-only string `" "` the chapter-upsert
word count is 1 while the find-and-replace word count is 0, so the two functions do
not agree on every input string. -/
theorem c10_word_counts_differ :
    wordCountUpsert " " = 1 ∧ wordCountReplace " " = 0 ∧
    wordCountUpsert " " ≠ wordCountReplace " " :=
  ⟨by decide, by decide, by decide⟩

/-- **C10 (amended)**: the two word-count functions agree on every string containing
at least one non-whitespace character (they differ only on whitespace-only strings,
where the upsert count is 1 and the replace count is 0). -/
theorem c10_word_counts_agree (s : String)
    (h : ∃ c ∈ s.data, ¬ c.isWhitespace) :
    wordCountUpsert s = wordCountReplace s := by
  classical
  obtain ⟨c0, hc0mem, hc0⟩ := h
  have hu_ne : s.data.dropWhile Char.isWhitespace ≠ [] := by
    intro he
    exact hc0 (List.dropWhile_eq_nil_iff.mp he c0 hc0mem)
  obtain ⟨h0, u', hu'⟩ : ∃ h0 u', s.data.dropWhile Char.isWhitespace = h0 :: u' := by
    cases hx : s.data.dropWhile Char.isWhitespace with
    | nil => exact absurd hx hu_ne
    | cons a b => exact ⟨a, b, rfl⟩
  have hh0 : ¬ h0.isWhitespace :=
    head?_dropWhile_not_ws s.data h0 (by rw [hu']; rfl)
  have hv_ne : (s.data.dropWhile Char.isWhitespace).reverse.dropWhile Char.isWhitespace
      ≠ [] := by
    intro he
    have := List.dropWhile_eq_nil_iff.mp he h0
      (List.mem_reverse.mpr (by rw [hu']; simp))
    exact hh0 this
  have hcore_head :
      ∃ c, (trimChars s.data).head? = some c ∧ ¬ c.isWhitespace := by
    refine ⟨h0, ?_, hh0⟩
    show ((s.data.dropWhile Char.isWhitespace).reverse.dropWhile
        Char.isWhitespace).reverse.head? = some h0
    rw [List.head?_reverse,
      getLast?_dropWhile_of_ne_nil Char.isWhitespace _ hv_ne,
      List.getLast?_reverse, hu']
    rfl
  have hcore_end :
      ∀ c, (trimChars s.data).getLast? = some c → ¬ c.isWhitespace := by
    intro c hcl
    refine head?_dropWhile_not_ws (s.data.dropWhile Char.isWhitespace).reverse c ?_
    rw [← List.head?_reverse] at hcl
    unfold trimChars at hcl
    rw [List.reverse_reverse] at hcl
    exact hcl
  have hsplit : s.data.dropWhile Char.isWhitespace =
      trimChars s.data ++
        ((s.data.dropWhile Char.isWhitespace).reverse.takeWhile
          Char.isWhitespace).reverse := by
    have h1 : ((s.data.dropWhile Char.isWhitespace).reverse.takeWhile Char.isWhitespace)
        ++ ((s.data.dropWhile Char.isWhitespace).reverse.dropWhile Char.isWhitespace) =
        (s.data.dropWhile Char.isWhitespace).reverse :=
      List.takeWhile_append_dropWhile _ _
    calc s.data.dropWhile Char.isWhitespace
        = (s.data.dropWhile Char.isWhitespace).reverse.reverse :=
          (List.reverse_reverse _).symm
      _ = (((s.data.dropWhile Char.isWhitespace).reverse.takeWhile Char.isWhitespace)
            ++ ((s.data.dropWhile Char.isWhitespace).reverse.dropWhile
              Char.isWhitespace)).reverse := by rw [h1]
      _ = ((s.data.dropWhile Char.isWhitespace).reverse.dropWhile
            Char.isWhitespace).reverse ++
          ((s.data.dropWhile Char.isWhitespace).reverse.takeWhile
            Char.isWhitespace).reverse := by rw [List.reverse_append]
      _ = trimChars s.data ++
          ((s.data.dropWhile Char.isWhitespace).reverse.takeWhile
            Char.isWhitespace).reverse := rfl
  have htail_ws : ∀ c ∈ ((s.data.dropWhile Char.isWhitespace).reverse.takeWhile
      Char.isWhitespace).reverse, c.isWhitespace := by
    intro c hcmem
    exact List.mem_takeWhile_imp (List.mem_reverse.mp hcmem)
  calc wordCountUpsert s
      = (splitWSGo (trimChars s.data) []).length := rfl
    _ = ((splitWSGo (trimChars s.data) []).filter
          (fun p => decide (0 < p.length))).length :=
        splitWSGo_len_eq_filter (trimChars s.data) [] hcore_end (Or.inr hcore_head)
    _ = ((splitWSGo (trimChars s.data ++
            ((s.data.dropWhile Char.isWhitespace).reverse.takeWhile
              Char.isWhitespace).reverse) []).filter
          (fun p => decide (0 < p.length))).length :=
        (filter_splitWSGo_append_ws _ htail_ws (trimChars s.data) []).symm
    _ = ((splitWSGo (s.data.dropWhile Char.isWhitespace) []).filter
          (fun p => decide (0 < p.length))).length := by rw [← hsplit]
    _ = ((splitWSGo s.data []).filter (fun p => decide (0 < p.length))).length :=
        (filter_splitWSGo_dropWhile s.data).symm
    _ = wordCountReplace s := rfl

/-- Witness for the amended word-count agreement at the concrete string "a b". -/
theorem c10_word_counts_agree_witness :
    (∃ c ∈ ("a b" : String).data, ¬ c.isWhitespace) ∧
    wordCountUpsert "a b" = wordCountReplace "a b" :=
  ⟨by decide, c10_word_counts_agree "a b" (by decide)⟩

end BetaReader

namespace BetaReader

/-! ## Chapter-order invariant lemmas -/

theorem count_filter_ne (cid y : String) (l : List String) :
    (l.filter (fun x => decide (x ≠ cid))).count y =
      if y = cid then 0 else l.count y := by
  by_cases hy : y = cid
  · subst hy
    rw [if_pos rfl, List.count_eq_zero]
    intro hmem
    have := List.of_mem_filter hmem
    simp at this
  · rw [if_neg hy]
    induction l with
    | nil => simp
    | cons a l ih =>
      rw [List.filter_cons]
      by_cases ha : a = cid
      · rw [if_neg (by simp [ha])]
        rw [ih, List.count_cons]
        have hay : (a == y) = false := by
          simp only [beq_eq_false_iff_ne, ne_eq]
          intro h
          exact hy (by rw [← h, ha])
        rw [hay]
        simp
      · rw [if_pos (by simp [ha])]
        rw [List.count_cons, List.count_cons, ih]

theorem count_spliceInsert (pos : Nat) (x y : String) (l : List String) :
    (spliceInsert pos x l).count y = l.count y + if y = x then 1 else 0 := by
  unfold spliceInsert
  conv_rhs => rw [← List.take_append_drop pos l]
  rw [List.count_append, List.count_append, List.count_cons]
  by_cases hy : y = x
  · simp [hy]
    omega
  · simp [hy, Ne.symm hy]

theorem mem_spliceInsert (pos : Nat) (x y : String) (l : List String) :
    y ∈ spliceInsert pos x l ↔ y = x ∨ y ∈ l := by
  unfold spliceInsert
  constructor
  · intro h
    rcases List.mem_append.mp h with h1 | h2
    · exact Or.inr (List.mem_of_mem_take h1)
    · rcases List.mem_cons.mp h2 with h3 | h4
      · exact Or.inl h3
      · exact Or.inr (List.mem_of_mem_drop h4)
  · intro h
    rcases h with rfl | hmem
    · exact List.mem_append.mpr (Or.inr (List.mem_cons_self _ _))
    · conv at hmem => rw [← List.take_append_drop pos l]
      rcases List.mem_append.mp hmem with h1 | h2
      · exact List.mem_append.mpr (Or.inl h1)
      · exact List.mem_append.mpr (Or.inr (List.mem_cons_of_mem _ h2))

theorem exists_key_of_map_eq {l l' : List Chapter}
    (h : l'.map chKey = l.map chKey) {c : Chapter} (hc : c ∈ l') :
    ∃ c0 ∈ l, c0.id = c.id ∧ c0.book_id = c.book_id := by
  have : chKey c ∈ l.map chKey := h ▸ List.mem_map_of_mem chKey hc
  obtain ⟨c0, hc0, hk⟩ := List.mem_map.mp this
  exact ⟨c0, hc0, congrArg Prod.fst hk, congrArg Prod.snd hk⟩

/-- The strengthened order invariant only depends on the books table and on the
(id, book_id) projection of the chapters table. -/
theorem strong_of_same (db db' : DB) (hb : db'.books = db.books)
    (hc : db'.chapters.map chKey = db.chapters.map chKey)
    (h : chapterOrderStrong db) : chapterOrderStrong db' := by
  intro b hbmem
  rw [hb] at hbmem
  obtain ⟨h1, h2⟩ := h b hbmem
  constructor
  · intro c hcmem hcbook
    obtain ⟨c0, hc0mem, hid, hbid⟩ := exists_key_of_map_eq hc hcmem
    have := h1 c0 hc0mem (by rw [hbid, hcbook])
    rwa [hid] at this
  · intro x hx
    obtain ⟨c0, hc0mem, hid, hbid⟩ := h2 x hx
    obtain ⟨c1, hc1mem, hid1, hbid1⟩ := exists_key_of_map_eq hc.symm hc0mem
    exact ⟨c1, hc1mem, hid1.trans hid, hbid1.trans hbid⟩

theorem wf_of_same (db db' : DB) (hb : db'.books = db.books)
    (hc : db'.chapters.map chKey = db.chapters.map chKey)
    (h : wfIds db) : wfIds db' := by
  refine ⟨hb ▸ h.1, ?_⟩
  have : db'.chapters.map Chapter.id = db.chapters.map Chapter.id := by
    have h1 : (db'.chapters.map chKey).map Prod.fst =
        (db.chapters.map chKey).map Prod.fst := by rw [hc]
    simpa [List.map_map, Function.comp] using h1
  rw [this]
  exact h.2

/-- The claimed invariant follows from the strengthened one under primary-key
well-formedness. -/
theorem inv_of_strong (db : DB) (hwf : wfIds db) (h : chapterOrderStrong db) :
    chapterOrderInv db := by
  intro b hb
  obtain ⟨h1, h2⟩ := h b hb
  refine ⟨h1, ?_⟩
  intro c hcmem hcbook hxmem
  obtain ⟨c0, hc0mem, hid, hbid⟩ := h2 c.id hxmem
  have : c0 = c := List.inj_on_of_nodup_map hwf.2 hc0mem hcmem hid
  exact hcbook (this ▸ hbid)

end BetaReader

namespace BetaReader

/-- Chapter upsert preserves well-formedness and the strengthened invariant,
provided it does not move an existing chapter to a different book. -/
theorem upsert_preserves (userId : Nat) (cid bookId : String) (title : Option String)
    (text : String) (db : DB)
    (hvalid : ∀ c ∈ db.chapters, c.id = cid → c.book_id = bookId)
    (hwf : wfIds db) (hstrong : chapterOrderStrong db) :
    wfIds (upsertChapter userId cid bookId title text db).2 ∧
      chapterOrderStrong (upsertChapter userId cid bookId title text db).2 := by
  unfold upsertChapter
  cases hfb : findBook db bookId with
  | none => exact ⟨hwf, hstrong⟩
  | some b =>
    dsimp only
    by_cases hown : b.user_id ≠ userId
    · rw [if_pos hown]
      exact ⟨hwf, hstrong⟩
    · rw [if_neg hown]
      by_cases hex : ∃ c ∈ db.chapters, c.id = cid
      · rw [if_pos hex]
        dsimp only
        have hbooks : (db.books.map (fun b2 =>
            if b2.id = bookId then
              { b2 with chapter_order :=
                  if cid ∈ b2.chapter_order then b2.chapter_order
                  else b2.chapter_order ++ [cid] }
            else b2)) = db.books := by
          refine (List.map_congr_left ?_).trans (List.map_id _)
          intro b2 hb2
          by_cases hb2id : b2.id = bookId
          · obtain ⟨c, hcmem, hcid⟩ := hex
            have hcb : c.book_id = bookId := hvalid c hcmem hcid
            have h1 := (hstrong b2 hb2).1 c hcmem (by rw [hcb, hb2id])
            have hmem : cid ∈ b2.chapter_order := by
              rw [← hcid]
              by_contra hnot
              have h0 := List.count_eq_zero.mpr hnot
              omega
            rw [if_pos hb2id, if_pos hmem]
            rfl
          · rw [if_neg hb2id]
            rfl
        have hkeys : ((db.chapters.map (fun c =>
            if c.id = cid then
              { c with book_id := bookId, title := title, text := text,
                       word_count := wordCountUpsert text }
            else c)).map chKey) = db.chapters.map chKey := by
          rw [List.map_map]
          refine List.map_congr_left ?_
          intro c hc
          by_cases hc2 : c.id = cid
          · have := hvalid c hc hc2
            simp [Function.comp, chKey, hc2, this]
          · simp [Function.comp, chKey, hc2]
        exact ⟨wf_of_same db _ hbooks hkeys hwf, strong_of_same db _ hbooks hkeys hstrong⟩
      · rw [if_neg hex]
        dsimp only
        have hfresh : ∀ c ∈ db.chapters, c.id ≠ cid := by
          intro c hc hcid
          exact hex ⟨c, hc, hcid⟩
        have hbids : (db.books.map (fun b2 =>
            if b2.id = bookId then
              { b2 with chapter_order :=
                  if cid ∈ b2.chapter_order then b2.chapter_order
                  else b2.chapter_order ++ [cid] }
            else b2)).map Book.id = db.books.map Book.id := by
          rw [List.map_map]
          refine List.map_congr_left ?_
          intro b2 _
          by_cases hb2id : b2.id = bookId <;> simp [Function.comp, hb2id]
        constructor
        · refine ⟨by rw [hbids]; exact hwf.1, ?_⟩
          rw [List.map_append]
          rw [List.nodup_append]
          refine ⟨hwf.2, by simp, ?_⟩
          intro x hx hx2
          simp only [List.map_cons, List.map_nil, List.mem_singleton] at hx2
          obtain ⟨c, hc, hcid⟩ := List.mem_map.mp hx
          exact hfresh c hc (by rw [hcid, hx2])
        · intro b2' hb2'
          obtain ⟨b2, hb2, rfl⟩ := List.mem_map.mp hb2'
          dsimp only
          by_cases hb2id : b2.id = bookId
          · have hnotin : cid ∉ b2.chapter_order := by
              intro hmem
              obtain ⟨c, hc, hcid, _⟩ := (hstrong b2 hb2).2 cid hmem
              exact hfresh c hc hcid
            rw [if_pos hb2id, if_neg hnotin]
            constructor
            · intro c hcmem hcbook
              simp only at hcbook
              rcases List.mem_append.mp hcmem with hold | hnew
              · have hne : c.id ≠ cid := hfresh c hold
                rw [List.count_append]
                have h1 := (hstrong b2 hb2).1 c hold (by rw [hcbook, hb2id])
                have h2 : List.count c.id [cid] = 0 := by
                  simp [List.count_cons, Ne.symm hne]
                rw [h1, h2]
              · rw [List.mem_singleton.mp hnew]
                rw [List.count_append]
                have h0 : b2.chapter_order.count cid = 0 := List.count_eq_zero.mpr hnotin
                dsimp only
                rw [h0]
                simp
            · intro x hx
              simp only at hx
              rcases List.mem_append.mp hx with hold | hxcid
              · obtain ⟨c, hc, hcid, hcb⟩ := (hstrong b2 hb2).2 x hold
                exact ⟨c, List.mem_append.mpr (Or.inl hc), hcid, by simp [hcb]⟩
              · rw [List.mem_singleton.mp hxcid]
                refine ⟨_, List.mem_append.mpr (Or.inr (List.mem_singleton.mpr rfl)),
                  rfl, ?_⟩
                simp [hb2id]
          · rw [if_neg hb2id]
            constructor
            · intro c hcmem hcbook
              rcases List.mem_append.mp hcmem with hold | hnew
              · exact (hstrong b2 hb2).1 c hold hcbook
              · rw [List.mem_singleton.mp hnew] at hcbook
                simp only at hcbook
                exact absurd hcbook.symm hb2id
            · intro x hx
              obtain ⟨c, hc, hcid, hcb⟩ := (hstrong b2 hb2).2 x hx
              exact ⟨c, List.mem_append.mpr (Or.inl hc), hcid, hcb⟩

end BetaReader

namespace BetaReader

theorem runStmts_nofail (stmts : List (DB → DB)) :
    ∀ (k : Nat) (db : DB), runStmts (fun _ => false) stmts k db =
      some (stmts.foldl (fun d f => f d) db) := by
  induction stmts with
  | nil => intro k db; rfl
  | cons f rest ih =>
    intro k db
    simp only [runStmts, Bool.false_eq_true, if_false, ite_false, if_neg,
      not_false_eq_true, List.foldl_cons]
    exact ih (k + 1) (f db)

theorem findChapterJoined_spec (db : DB) (cid : String) (ch : Chapter) (b : Book)
    (h : findChapterJoined db cid = some (ch, b)) :
    ch ∈ db.chapters ∧ ch.id = cid ∧ b ∈ db.books ∧ b.id = ch.book_id := by
  unfold findChapterJoined at h
  cases hc1 : db.chapters.find? (fun c => decide (c.id = cid)) with
  | none => rw [hc1] at h; simp at h
  | some ch0 =>
    rw [hc1] at h
    simp only [Option.some_bind] at h
    cases hb1 : findBook db ch0.book_id with
    | none => rw [hb1] at h; simp at h
    | some b0 =>
      rw [hb1] at h
      simp only [Option.map_some', Option.some.injEq, Prod.mk.injEq] at h
      obtain ⟨h1, h2⟩ := h
      subst h1
      subst h2
      refine ⟨List.mem_of_find?_eq_some hc1, by simpa using List.find?_some hc1, ?_, ?_⟩
      · exact List.mem_of_find?_eq_some hb1
      · simpa using List.find?_some hb1

theorem setChapterPart_books_keys (cid : String) (pid : Option Nat) (d : DB) :
    (setChapterPart cid pid d).books = d.books ∧
      (setChapterPart cid pid d).chapters.map chKey = d.chapters.map chKey := by
  refine ⟨rfl, ?_⟩
  unfold setChapterPart
  dsimp only
  rw [List.map_map]
  refine List.map_congr_left ?_
  intro c _
  by_cases h : c.id = cid <;> simp [Function.comp, chKey, h]

theorem reorderStmts_shape (ch : Chapter) (bookOrd : List String) (cid : String)
    (partArg : Option (Option Nat)) (bookPos partPos : Option Nat) :
    ∃ pstmts bstmts,
      reorderStmts ch bookOrd cid partArg bookPos partPos = pstmts ++ bstmts ∧
      (∀ f ∈ pstmts, ∀ d : DB, (f d).books = d.books ∧
        (f d).chapters.map chKey = d.chapters.map chKey) ∧
      (bstmts = [] ∨ ∃ bp, bookPos = some bp ∧
        bstmts = [setBookOrder ch.book_id
          (spliceInsert bp cid (bookOrd.filter (fun x => decide (x ≠ cid))))]) := by
  refine ⟨(match partArg with
      | none => []
      | some newPid =>
        [setChapterPart cid newPid]
          ++ (match ch.part_id with
              | some oldPid => [removeFromPartOrder oldPid cid]
              | none => [])
          ++ (match newPid with
              | some p =>
                match partPos with
                | some pp => [insertPartOrderAt p (pp + 1) cid]
                | none => [appendPartOrder p cid]
              | none => [])),
    (match bookPos with
      | none => []
      | some bp => [setBookOrder ch.book_id
          (spliceInsert bp cid (bookOrd.filter (fun x => decide (x ≠ cid))))]),
    rfl, ?_, ?_⟩
  · intro f hf d
    rcases partArg with _ | newPid
    · simp at hf
    · dsimp only at hf
      simp only [List.mem_append] at hf
      rcases hf with (hf | hf) | hf
      · rw [List.mem_singleton.mp hf]
        exact setChapterPart_books_keys cid newPid d
      · rcases hpid : ch.part_id with _ | oldPid <;> rw [hpid] at hf
        · exact absurd hf (List.not_mem_nil f)
        · rw [List.mem_singleton.mp hf]
          exact ⟨rfl, rfl⟩
      · rcases newPid with _ | p
        · exact absurd hf (List.not_mem_nil f)
        · rcases partPos with _ | pp
          · rw [List.mem_singleton.mp hf]
            exact ⟨rfl, rfl⟩
          · rw [List.mem_singleton.mp hf]
            exact ⟨rfl, rfl⟩
  · rcases bookPos with _ | bp
    · exact Or.inl rfl
    · exact Or.inr ⟨bp, rfl, rfl⟩

theorem foldl_books_keys : ∀ (stmts : List (DB → DB)),
    (∀ f ∈ stmts, ∀ d : DB, (f d).books = d.books ∧
      (f d).chapters.map chKey = d.chapters.map chKey) →
    ∀ db : DB, ((stmts.foldl (fun d f => f d) db).books = db.books ∧
      (stmts.foldl (fun d f => f d) db).chapters.map chKey = db.chapters.map chKey) := by
  intro stmts
  induction stmts with
  | nil => intro _ db; exact ⟨rfl, rfl⟩
  | cons f rest ih =>
    intro h db
    have hf := h f (by simp) db
    have hr := ih (fun g hg d => h g (by simp [hg]) d) (f db)
    simp only [List.foldl_cons]
    exact ⟨hr.1.trans hf.1, hr.2.trans hf.2⟩

theorem setBookOrder_splice_preserves (db : DB) (cid bid : String)
    (ord0 : List String) (bp : Nat) (hwf : wfIds db) (hstrong : chapterOrderStrong db)
    (hch : ∃ c ∈ db.chapters, c.id = cid ∧ c.book_id = bid)
    (hord : ∀ b2 ∈ db.books, b2.id = bid → b2.chapter_order = ord0) :
    wfIds (setBookOrder bid
        (spliceInsert bp cid (ord0.filter (fun x => decide (x ≠ cid)))) db) ∧
      chapterOrderStrong (setBookOrder bid
        (spliceInsert bp cid (ord0.filter (fun x => decide (x ≠ cid)))) db) := by
  constructor
  · refine ⟨?_, hwf.2⟩
    unfold setBookOrder
    dsimp only
    rw [List.map_map]
    have : ∀ b2 ∈ db.books, (Book.id ∘ fun b3 =>
        if b3.id = bid then
          { b3 with chapter_order :=
              spliceInsert bp cid (ord0.filter (fun x => decide (x ≠ cid))) }
        else b3) b2 = Book.id b2 := by
      intro b2 _
      by_cases h : b2.id = bid <;> simp [Function.comp, h]
    rw [List.map_congr_left this]
    exact hwf.1
  · intro b2' hb2'
    unfold setBookOrder at hb2'
    obtain ⟨b2, hb2, rfl⟩ := List.mem_map.mp hb2'
    by_cases h2 : b2.id = bid
    · rw [if_pos h2]
      dsimp only
      obtain ⟨c0, hc0, hc0id, hc0b⟩ := hch
      have hordeq : b2.chapter_order = ord0 := hord b2 hb2 h2
      constructor
      · intro c hcmem hcbook
        rw [count_spliceInsert, count_filter_ne]
        by_cases hcc : c.id = cid
        · simp [hcc]
        · rw [if_neg hcc, if_neg hcc]
          have h1 := (hstrong b2 hb2).1 c hcmem hcbook
          rw [hordeq] at h1
          omega
      · intro x hx
        rw [mem_spliceInsert] at hx
        rcases hx with rfl | hxmem
        · refine ⟨c0, hc0, hc0id, ?_⟩
          rw [hc0b]
          exact h2.symm
        · have hx0 : x ∈ ord0 := List.mem_of_mem_filter hxmem
          rw [← hordeq] at hx0
          obtain ⟨c, hc, hcid, hcb⟩ := (hstrong b2 hb2).2 x hx0
          exact ⟨c, hc, hcid, hcb⟩
    · rw [if_neg h2]
      constructor
      · intro c hcmem hcbook
        exact (hstrong b2 hb2).1 c hcmem hcbook
      · intro x hx
        exact (hstrong b2 hb2).2 x hx

theorem setBookOrder_perm_preserves (db : DB) (bid : String) (ord : List String)
    (hwf : wfIds db) (hstrong : chapterOrderStrong db)
    (hperm : ord.Perm (bookChapterIds db bid)) :
    wfIds (setBookOrder bid ord db) ∧ chapterOrderStrong (setBookOrder bid ord db) := by
  have hsub : (bookChapterIds db bid).Nodup := by
    unfold bookChapterIds
    exact ((List.filter_sublist db.chapters).map Chapter.id).nodup hwf.2
  constructor
  · refine ⟨?_, hwf.2⟩
    unfold setBookOrder
    dsimp only
    rw [List.map_map]
    have : ∀ b2 ∈ db.books, (Book.id ∘ fun b3 =>
        if b3.id = bid then { b3 with chapter_order := ord } else b3) b2 =
          Book.id b2 := by
      intro b2 _
      by_cases h : b2.id = bid <;> simp [Function.comp, h]
    rw [List.map_congr_left this]
    exact hwf.1
  · intro b2' hb2'
    unfold setBookOrder at hb2'
    obtain ⟨b2, hb2, rfl⟩ := List.mem_map.mp hb2'
    by_cases h2 : b2.id = bid
    · rw [if_pos h2]
      constructor
      · intro c hcmem hcbook
        simp only at hcbook
        rw [hperm.count_eq]
        have hcmemf : c ∈ db.chapters.filter (fun c2 => decide (c2.book_id = bid)) :=
          List.mem_filter.mpr ⟨hcmem, by simp [hcbook, h2]⟩
        exact List.count_eq_one_of_mem hsub
          (List.mem_map_of_mem Chapter.id hcmemf)
      · intro x hx
        simp only at hx
        have hx2 : x ∈ bookChapterIds db bid := hperm.mem_iff.mp hx
        unfold bookChapterIds at hx2
        obtain ⟨c, hc, hcid⟩ := List.mem_map.mp hx2
        have hcf := List.mem_filter.mp hc
        refine ⟨c, hcf.1, hcid, ?_⟩
        have := hcf.2
        simp only [decide_eq_true_eq] at this
        rw [this, h2]
    · rw [if_neg h2]
      constructor
      · intro c hcmem hcbook
        exact (hstrong b2 hb2).1 c hcmem hcbook
      · intro x hx
        exact (hstrong b2 hb2).2 x hx

theorem applyPartUpdate_books_keys (bid : String) (pu : Option Nat × List String)
    (d : DB) :
    (applyPartUpdate bid d pu).books = d.books ∧
      (applyPartUpdate bid d pu).chapters.map chKey = d.chapters.map chKey := by
  rcases pu with ⟨pid?, cids⟩
  rcases pid? with _ | pid
  · unfold applyPartUpdate
    dsimp only
    by_cases he : cids.isEmpty
    · rw [if_pos he]
      exact ⟨rfl, rfl⟩
    · rw [if_neg he]
      refine ⟨rfl, ?_⟩
      dsimp only
      rw [List.map_map]
      refine List.map_congr_left ?_
      intro c _
      by_cases h : c.id ∈ cids ∧ c.book_id = bid <;> simp [Function.comp, chKey, h]
  · unfold applyPartUpdate
    dsimp only
    by_cases he : cids.isEmpty
    · rw [if_pos he]
      exact ⟨rfl, rfl⟩
    · rw [if_neg he]
      refine ⟨rfl, ?_⟩
      dsimp only
      rw [List.map_map]
      refine List.map_congr_left ?_
      intro c _
      by_cases h : c.id ∈ cids ∧ c.book_id = bid <;> simp [Function.comp, chKey, h]

theorem foldl_applyPartUpdate_books_keys (bid : String)
    (pus : List (Option Nat × List String)) :
    ∀ d, ((pus.foldl (applyPartUpdate bid) d).books = d.books ∧
      (pus.foldl (applyPartUpdate bid) d).chapters.map chKey = d.chapters.map chKey) := by
  induction pus with
  | nil => intro d; exact ⟨rfl, rfl⟩
  | cons pu rest ih =>
    intro d
    have h1 := applyPartUpdate_books_keys bid pu d
    have h2 := ih (applyPartUpdate bid d pu)
    simp only [List.foldl_cons]
    exact ⟨h2.1.trans h1.1, h2.2.trans h1.2⟩

end BetaReader

namespace BetaReader

/-- A single valid operation preserves well-formedness and the strengthened order
invariant. -/
theorem op_preserves (db : DB) (op : Op) (hv : op.valid db) (hwf : wfIds db)
    (hstrong : chapterOrderStrong db) :
    wfIds (op.apply db) ∧ chapterOrderStrong (op.apply db) := by
  cases op with
  | upsert u cid bid t tx => exact upsert_preserves u cid bid t tx db hv hwf hstrong
  | reorderOne u cid pa bp pp =>
    show wfIds (reorderChapter (fun _ => false) u cid pa bp pp db).2 ∧
      chapterOrderStrong (reorderChapter (fun _ => false) u cid pa bp pp db).2
    unfold reorderChapter
    cases hfc : findChapterJoined db cid with
    | none => exact ⟨hwf, hstrong⟩
    | some chb =>
      obtain ⟨ch, b⟩ := chb
      obtain ⟨hchmem, hchid, hbmem, hbid⟩ := findChapterJoined_spec db cid ch b hfc
      dsimp only
      by_cases hown : b.user_id ≠ u
      · rw [if_pos hown]
        exact ⟨hwf, hstrong⟩
      · rw [if_neg hown]
        unfold withTx
        rw [runStmts_nofail]
        dsimp only
        obtain ⟨pstmts, bstmts, heq, hpk, hbs⟩ :=
          reorderStmts_shape ch b.chapter_order cid pa bp pp
        rw [heq, List.foldl_append]
        have hmidk := foldl_books_keys pstmts hpk db
        have hwfMid : wfIds (pstmts.foldl (fun d f => f d) db) :=
          wf_of_same db _ hmidk.1 hmidk.2 hwf
        have hstrongMid : chapterOrderStrong (pstmts.foldl (fun d f => f d) db) :=
          strong_of_same db _ hmidk.1 hmidk.2 hstrong
        rcases hbs with rfl | ⟨bpv, hbp, rfl⟩
        · simpa using ⟨hwfMid, hstrongMid⟩
        · simp only [List.foldl_cons, List.foldl_nil]
          rw [← hchid]
          refine setBookOrder_splice_preserves _ ch.id ch.book_id b.chapter_order bpv
            hwfMid hstrongMid ?_ ?_
          · obtain ⟨c1, hc1, hid1, hb1⟩ := exists_key_of_map_eq hmidk.2.symm hchmem
            exact ⟨c1, hc1, hid1, hb1⟩
          · intro b2 hb2 h2
            rw [hmidk.1] at hb2
            have hb2b : b2 = b :=
              List.inj_on_of_nodup_map hwf.1 hb2 hbmem (by rw [h2, hbid])
            rw [hb2b]
  | batch u bid ord pus =>
    show wfIds (batchReorder u bid ord pus db).2 ∧
      chapterOrderStrong (batchReorder u bid ord pus db).2
    unfold batchReorder
    cases hfb : findBook db bid with
    | none => exact ⟨hwf, hstrong⟩
    | some b =>
      dsimp only
      by_cases hown : b.user_id ≠ u
      · rw [if_pos hown]
        exact ⟨hwf, hstrong⟩
      · rw [if_neg hown]
        dsimp only
        cases ord with
        | none =>
          dsimp only
          have hk := foldl_applyPartUpdate_books_keys bid pus db
          exact ⟨wf_of_same db _ hk.1 hk.2 hwf, strong_of_same db _ hk.1 hk.2 hstrong⟩
        | some o =>
          dsimp only
          have hperm : o.Perm (bookChapterIds db bid) := hv
          have h1 := setBookOrder_perm_preserves db bid o hwf hstrong hperm
          have hk := foldl_applyPartUpdate_books_keys bid pus (setBookOrder bid o db)
          exact ⟨wf_of_same _ _ hk.1 hk.2 h1.1, strong_of_same _ _ hk.1 hk.2 h1.2⟩

end BetaReader

namespace BetaReader

theorem validSeq_preserves : ∀ (ops : List Op) (db : DB), wfIds db →
    chapterOrderStrong db → ValidSeq db ops →
    wfIds (applySeq db ops) ∧ chapterOrderStrong (applySeq db ops) := by
  intro ops
  induction ops with
  | nil => intro db hwf hstrong _; exact ⟨hwf, hstrong⟩
  | cons op rest ih =>
    intro db hwf hstrong hv
    obtain ⟨hv1, hv2⟩ := hv
    have h1 := op_preserves db op hv1 hwf hstrong
    exact ih (op.apply db) h1.1 h1.2 hv2

/-- **C1 counterexample**: from a state satisfying the claimed invariant (user 1's
books "A" with chapter c1 and "B" with chapter c2), one batch-reorder request for
book "A" carrying `chapterOrder = ["c2"]` — accepted as-is by the handler, which
writes the client-supplied array wholesale — leaves book "A"'s chapter_order
containing the identifier of a chapter belonging to book "B" and lacking its own
chapter c1, violating the invariant. -/
theorem c1_order_invariant_counterexample :
    chapterOrderInv dbEx ∧ wfIds dbEx ∧
    ¬ chapterOrderInv (applySeq dbEx [Op.batch 1 "A" (some ["c2"]) []]) :=
  ⟨by decide, by decide, by decide⟩

/-- **C1 (amended)**: the chapter-order invariant — each of a book's chapter ids
exactly once, no foreign ids — holds after any sequence of chapter upserts,
single-chapter reorders and batch reorders, provided each upsert does not reassign
an existing chapter to a different book and each batch reorder supplies a
permutation of the book's chapter ids as the replacement global order (conditions
the handlers do not themselves validate), starting from a well-formed state whose
order entries are exactly its books' chapter ids. -/
theorem c1_order_invariant_amended (db : DB) (ops : List Op) (hwf : wfIds db)
    (hstrong : chapterOrderStrong db) (hvalid : ValidSeq db ops) :
    chapterOrderInv (applySeq db ops) := by
  have h := validSeq_preserves ops db hwf hstrong hvalid
  exact inv_of_strong _ h.1 h.2

/-- Witness: a three-operation sequence (insert a new chapter, move it into a part
and to book position 0, then batch-reorder with a permutation) keeps the invariant. -/
theorem c1_order_invariant_amended_witness :
    wfIds dbEx ∧ chapterOrderStrong dbEx ∧
    ValidSeq dbEx [Op.upsert 1 "c3" "A" none "hello world",
      Op.reorderOne 1 "c3" (some (some 7)) (some 0) none,
      Op.batch 1 "A" (some ["c1", "c3"]) []] ∧
    chapterOrderInv (applySeq dbEx [Op.upsert 1 "c3" "A" none "hello world",
      Op.reorderOne 1 "c3" (some (some 7)) (some 0) none,
      Op.batch 1 "A" (some ["c1", "c3"]) []]) := by
  refine ⟨by decide, by decide, by decide, ?_⟩
  exact c1_order_invariant_amended dbEx
    [Op.upsert 1 "c3" "A" none "hello world",
     Op.reorderOne 1 "c3" (some (some 7)) (some 0) none,
     Op.batch 1 "A" (some ["c1", "c3"]) []] (by decide) (by decide) (by decide)

end BetaReader

namespace BetaReader

/-! ## Wiki-maintenance isolation lemmas -/

theorem upsertSummary_wiki_pages (cid : String) (out : SummaryOut) (db : DB) :
    (upsertSummary cid out db).wiki_pages = db.wiki_pages := by
  unfold upsertSummary
  split <;> rfl

theorem upsertBookCharacter_wiki_pages (bookId name chapterId : String) (db : DB) :
    (upsertBookCharacter bookId name chapterId db).wiki_pages = db.wiki_pages := by
  unfold upsertBookCharacter
  split <;> rfl

theorem linkCharacterPage_wiki_pages (pid : Nat) (bookId name : String) (db : DB) :
    (linkCharacterPage pid bookId name db).wiki_pages = db.wiki_pages := rfl

theorem logCreatedUpdate_wiki_pages (pid : Nat) (chapterId : String) (g : WikiGen)
    (name : String) (db : DB) :
    (logCreatedUpdate pid chapterId g name db).wiki_pages = db.wiki_pages := rfl

theorem upsertMention_wiki_pages (chapterId : String) (pid : Nat)
    (chapterSummary : String) (db : DB) :
    (upsertMention chapterId pid chapterSummary db).wiki_pages = db.wiki_pages := by
  unfold upsertMention
  split <;> rfl

theorem findWikiPage_congr (db db' : DB) (bookId name : String)
    (h : db'.wiki_pages = db.wiki_pages) :
    findWikiPage db' bookId name = findWikiPage db bookId name := by
  unfold findWikiPage
  rw [h]

/-- **C6**: the wiki-maintenance pass triggered by summary generation can never
change the summary response (first conjunct: the response is the same under any
database-failure/model oracles for the pass), and when the model call fails while
generating the page for a new character, a minimal fallback page (AI-authored, with
the hardcoded fallback content) is still inserted rather than leaving the page
absent (second conjunct, stated for a summary that mentions the one new character
and a pass whose database statements succeed). -/
theorem c6_wiki_maintenance_best_effort (ctx ctx' : MaintCtx) (userId : Nat)
    (chapterId : String) (modelSummary : Except String SummaryOut) (db : DB) :
    ((summaryRoute ctx userId chapterId modelSummary db).1 =
      (summaryRoute ctx' userId chapterId modelSummary db).1) ∧
    (∀ ch b out name,
      findChapterJoined db chapterId = some (ch, b) →
      b.user_id = userId →
      modelSummary = .ok out →
      out.characters = [name] →
      ctx.dbFail = (fun _ => false) →
      (∃ e, ctx.modelRes name = .error e) →
      findWikiPage db ch.book_id name = none →
      ∃ w ∈ (summaryRoute ctx userId chapterId modelSummary db).2.wiki_pages,
        w.book_id = ch.book_id ∧ w.page_name = name ∧
        w.content = (fallbackWikiGen name out.summary).content ∧
        w.summary = (fallbackWikiGen name out.summary).summary ∧
        w.created_by_ai = true) := by
  constructor
  · unfold summaryRoute
    cases findChapterJoined db chapterId with
    | none => rfl
    | some chb =>
      obtain ⟨ch, b⟩ := chb
      dsimp only
      by_cases hown : b.user_id ≠ userId
      · rw [if_pos hown, if_pos hown]
      · rw [if_neg hown, if_neg hown]
        cases modelSummary with
        | error e => rfl
        | ok out => rfl
  · intro ch b out name hfind hown hok hchars hdbfail hmodel hnone
    obtain ⟨e, he⟩ := hmodel
    have hm : ∀ (f : DB → DB) (s : MaintState),
        mstep ctx f s = .ok ⟨f s.db, s.step + 1⟩ := by
      intro f s
      unfold mstep
      rw [hdbfail]
      simp
    unfold summaryRoute
    rw [hfind]
    dsimp only
    rw [if_neg (by rw [hown]; exact fun h => h rfl), hok]
    dsimp only
    rw [hchars]
    simp only [List.isEmpty_cons, Bool.false_eq_true, if_false, ite_false, if_neg,
      not_false_eq_true]
    unfold updateWikiPagesFromChapter processCharacters processCharacter
    rw [hm]
    simp only [bind, Except.bind]
    have hwp1 : (upsertBookCharacter ch.book_id name chapterId
        (upsertSummary chapterId out db)).wiki_pages = db.wiki_pages := by
      rw [upsertBookCharacter_wiki_pages, upsertSummary_wiki_pages]
    rw [findWikiPage_congr db _ ch.book_id name hwp1, hnone]
    rw [he]
    dsimp only [generateWikiContent]
    rw [hm]
    simp only [bind, Except.bind]
    rw [hm]
    simp only [bind, Except.bind]
    rw [hm]
    simp only [bind, Except.bind]
    rw [hm]
    dsimp only
    simp only [processCharacters]
    rw [upsertMention_wiki_pages, logCreatedUpdate_wiki_pages,
      linkCharacterPage_wiki_pages]
    unfold insertAIWikiPage
    dsimp only
    refine ⟨_, List.mem_append.mpr (Or.inr (List.mem_singleton.mpr rfl)), ?_⟩
    exact ⟨rfl, rfl, rfl, rfl, rfl⟩

/-- Witness for the wiki-maintenance theorem: concrete state, failing model oracle
for "Ann", succeeding database statements. -/
theorem c6_wiki_maintenance_best_effort_witness :
    findChapterJoined dbEx "c1" = some
      ({ id := "c1", book_id := "A", title := none, text := "x", word_count := 1,
         part_id := none },
       { id := "A", user_id := 1, title := "A", chapter_order := ["c1"] }) ∧
    findWikiPage dbEx "A" "Ann" = none ∧
    ∃ w ∈ (summaryRoute
        { dbFail := fun _ => false, modelRes := fun _ => .error "model down" } 1 "c1"
        (.ok { pov := none, characters := ["Ann"], beats := [], spoilers_ok := false,
               summary := "sum" }) dbEx).2.wiki_pages,
      w.book_id = "A" ∧ w.page_name = "Ann" ∧
      w.content = (fallbackWikiGen "Ann" "sum").content ∧
      w.summary = (fallbackWikiGen "Ann" "sum").summary ∧
      w.created_by_ai = true := by
  refine ⟨by decide, by decide, ?_⟩
  exact (c6_wiki_maintenance_best_effort
      { dbFail := fun _ => false, modelRes := fun _ => .error "model down" }
      { dbFail := fun _ => false, modelRes := fun _ => .error "model down" } 1 "c1"
      (.ok { pov := none, characters := ["Ann"], beats := [], spoilers_ok := false,
             summary := "sum" }) dbEx).2
    { id := "c1", book_id := "A", title := none, text := "x", word_count := 1,
      part_id := none }
    { id := "A", user_id := 1, title := "A", chapter_order := ["c1"] }
    { pov := none, characters := ["Ann"], beats := [], spoilers_ok := false,
      summary := "sum" } "Ann" (by decide) (by decide) rfl rfl rfl
    ⟨"model down", rfl⟩ (by decide)

end BetaReader
